import Mathlib

/-!
Verification of the update-queue / fiber double-buffering core of a React
reconciler clone (tuzhu008/Deep-Learning-React), shallowly embedded in Lean.

The embedding mirrors, file by file:
  * react-reconciler/src/ReactUpdateQueue.js  (update records, queue
    processing, commit splicing)
  * react-reconciler/src/ReactFiber.js        (fiber records, double
    buffering via createWorkInProgress, createFiberFromTypeAndProps)
  * the host-context stack module             (getHostContext and friends)
  * the DOM property table module             (shouldRemoveAttribute,
    setValueForProperty)

JavaScript values that can flow through state updates are modelled by the
inductive type JVal below; update payloads, which in JS may be functions,
are modelled by a separate sum JPayload since a function cannot occur
inside the value inductive.  DEV-only code paths (__DEV__ guards, warning
latches) are modelled at their production behaviour.
-/

namespace ReactModel

/-- Model of the JavaScript values that appear as component state and as
props in the update queue: null, undefined, booleans, numbers (modelled
as integers), strings, and plain objects given by an insertion-ordered
field list. -/
inductive JVal where
  | jnull
  | jundefined
  | jbool (b : Bool)
  | jnum (n : Int)
  | jstr (s : String)
  | jobj (fields : List (String × JVal))
deriving Repr

/-- Update payloads (ReactUpdateQueue.js, field `payload` of an Update):
either an ordinary value or an updater function of
(previousState, nextProps).  The receiver (`this` = instance) is not
modelled: the payload functions of interest close over nothing. -/
inductive JPayload where
  | pfn (f : JVal → JVal → JVal)
  | pval (v : JVal)

/-- Tag constant UpdateState = 0 from ReactUpdateQueue.js. -/
def UpdateState : Nat := 0
/-- Tag constant ReplaceState = 1 from ReactUpdateQueue.js. -/
def ReplaceState : Nat := 1
/-- Tag constant ForceUpdate = 2 from ReactUpdateQueue.js. -/
def ForceUpdate : Nat := 2
/-- Tag constant CaptureUpdate = 3 from ReactUpdateQueue.js. -/
def CaptureUpdate : Nat := 3

/-- Side-effect tag NoEffect = 0b0 (shared/ReactSideEffectTags). -/
def NoEffect : Nat := 0
/-- Side-effect tag Callback = 0b100000 (shared/ReactSideEffectTags). -/
def Callback : Nat := 32
/-- Side-effect tag DidCapture = 0b1000000 (shared/ReactSideEffectTags). -/
def DidCapture : Nat := 64
/-- Side-effect tag ShouldCapture = 0b100000000000 (shared/ReactSideEffectTags). -/
def ShouldCapture : Nat := 2048

/-- ExpirationTime sentinel NoWork = 0 (ReactFiberExpirationTime.js).  An
update is skipped when its expirationTime is numerically below the render
expirationTime, so larger numbers are more urgent. -/
def NoWork : Nat := 0

/-- Own enumerable properties of a JVal, in order, as read by
Object.assign: objects expose their field list, strings expose their
indexed characters, every other primitive exposes nothing. -/
def ownEnumerableFields : JVal → List (String × JVal)
  | .jobj fields => fields
  | .jstr s => (s.toList.enum.map fun p => (toString p.1, JVal.jstr (String.mk [p.2])))
  | _ => []

/-- Assignment of one field on an object field list, JS semantics: the
first existing binding of the key is overwritten in place, otherwise the
binding is appended at the end. -/
def setField : List (String × JVal) → String → JVal → List (String × JVal)
  | [], k, v => [(k, v)]
  | (k', v') :: rest, k, v =>
      if k' = k then (k', v) :: rest else (k', v') :: setField rest k v

/-- Model of Object.assign(\x7b\x7d, target, source) as used by
getStateFromUpdate: the own enumerable fields of target, then of source,
are assigned one by one onto a fresh empty object. -/
def objectAssign (target source : JVal) : JVal :=
  .jobj ((ownEnumerableFields target ++ ownEnumerableFields source).foldl
    (fun acc kv => setField acc kv.1 kv.2) [])

/-- One record of the update list (type Update in ReactUpdateQueue.js).
The callback field only records presence (callback !== null); the
next/nextEffect links are implicit in the list structure of the queue
model below. -/
structure UpdateRec where
  expirationTime : Nat
  tag : Nat
  payload : JPayload
  callback : Bool

/-- Value-level model of UpdateQueue from ReactUpdateQueue.js.  The two
singly-linked lists (firstUpdate..lastUpdate and
firstCapturedUpdate..lastCapturedUpdate) are modelled as Lean lists; the
two effect lists likewise.  firstUpdate = null corresponds to
updates = []. -/
structure UpdateQueueM where
  baseState : JVal
  updates : List UpdateRec
  capturedUpdates : List UpdateRec
  effects : List UpdateRec
  capturedEffects : List UpdateRec

/-- createUpdateQueue(baseState): an empty queue over the given base
state. -/
def createUpdateQueue (baseState : JVal) : UpdateQueueM :=
  { baseState := baseState
    updates := []
    capturedUpdates := []
    effects := []
    capturedEffects := [] }

/-- cloneUpdateQueue(currentQueue): shares the normal list and base state,
clears the captured and effect lists. -/
def cloneUpdateQueue (currentQueue : UpdateQueueM) : UpdateQueueM :=
  { baseState := currentQueue.baseState
    updates := currentQueue.updates
    capturedUpdates := []
    effects := []
    capturedEffects := [] }

/-- Result triple of getStateFromUpdate: the new state together with the
possibly-updated effectTag of the work-in-progress fiber and the global
hasForceUpdate flag it may set. -/
structure GSFU where
  state : JVal
  effectTag : Nat
  hasForceUpdate : Bool

/-- getStateFromUpdate(workInProgress, queue, update, prevState,
nextProps, instance) from ReactUpdateQueue.js, with the mutation of
workInProgress.effectTag and of the module-global hasForceUpdate made
explicit.  The CaptureUpdate case clears ShouldCapture, sets DidCapture
and falls through to the UpdateState merge logic, exactly as the source
switch does. -/
def getStateFromUpdate (effectTag : Nat) (hasForceUpdate : Bool)
    (update : UpdateRec) (prevState nextProps : JVal) : GSFU :=
  if update.tag = ReplaceState then
    match update.payload with
    | .pfn f => ⟨f prevState nextProps, effectTag, hasForceUpdate⟩
    | .pval v => ⟨v, effectTag, hasForceUpdate⟩
  else if update.tag = CaptureUpdate ∨ update.tag = UpdateState then
    let effectTag' :=
      if update.tag = CaptureUpdate then
        (effectTag &&& (2 ^ 32 - 1 - ShouldCapture)) ||| DidCapture
      else effectTag
    let partialState :=
      match update.payload with
      | .pfn f => f prevState nextProps
      | .pval v => v
    match partialState with
    | .jnull => ⟨prevState, effectTag', hasForceUpdate⟩
    | .jundefined => ⟨prevState, effectTag', hasForceUpdate⟩
    | p => ⟨objectAssign prevState p, effectTag', hasForceUpdate⟩
  else if update.tag = ForceUpdate then
    ⟨prevState, effectTag, true⟩
  else
    ⟨prevState, effectTag, hasForceUpdate⟩

/-- Mutable values of the processUpdateQueue loop (ReactUpdateQueue.js):
the running result state, the work-in-progress effectTag, the global
hasForceUpdate flag, and the accumulated newBaseState, newFirstUpdate,
newFirstCapturedUpdate, newExpirationTime and effect lists.  A newFirst
value of some l means the recorded first skipped update heads the list
suffix l (the links after a skipped update are left untouched, so the
remaining linked list is exactly that suffix). -/
structure ProcPass where
  resultState : JVal
  effectTag : Nat
  hasForceUpdate : Bool
  newBaseState : JVal
  newFirst : Option (List UpdateRec)
  newFirstCaptured : Option (List UpdateRec)
  newExpirationTime : Nat
  effects : List UpdateRec
  capturedEffects : List UpdateRec

/-- Body of the skip branch of the first while loop of
processUpdateQueue: record the first skipped update (the suffix it heads
is the remaining linked list) and snapshot the base state, then fold the
skipped priority into the remaining expiration time. -/
def skipStep (st : ProcPass) (u : UpdateRec) (rest : List UpdateRec) : ProcPass :=
  let st :=
    if st.newFirst.isNone then
      { st with newFirst := some (u :: rest), newBaseState := st.resultState }
    else st
  if st.newExpirationTime < u.expirationTime then
    { st with newExpirationTime := u.expirationTime }
  else st

/-- Body of the apply branch of the first while loop of
processUpdateQueue: compute the next state via getStateFromUpdate and,
when the update carries a callback, set the Callback effect bit and move
the update onto the normal effect list. -/
def applyStep (props : JVal) (st : ProcPass) (u : UpdateRec) : ProcPass :=
  let g := getStateFromUpdate st.effectTag st.hasForceUpdate u st.resultState props
  let st := { st with resultState := g.state, effectTag := g.effectTag,
                      hasForceUpdate := g.hasForceUpdate }
  if u.callback then
    { st with effectTag := st.effectTag ||| Callback,
              effects := st.effects ++ [u] }
  else st

/-- The first while loop of processUpdateQueue, over the normal update
list. -/
def processLoop (renderExpirationTime : Nat) (props : JVal) :
    List UpdateRec → ProcPass → ProcPass
  | [], st => st
  | u :: rest, st =>
      if u.expirationTime < renderExpirationTime then
        processLoop renderExpirationTime props rest (skipStep st u rest)
      else
        processLoop renderExpirationTime props rest (applyStep props st u)

/-- Skip branch of the second (captured) while loop: the first captured
skip re-bases newBaseState only when the normal list recorded no skip. -/
def capturedSkipStep (st : ProcPass) (u : UpdateRec) (rest : List UpdateRec) : ProcPass :=
  let st :=
    if st.newFirstCaptured.isNone then
      { st with newFirstCaptured := some (u :: rest),
                newBaseState :=
                  if st.newFirst.isNone then st.resultState
                  else st.newBaseState }
    else st
  if st.newExpirationTime < u.expirationTime then
    { st with newExpirationTime := u.expirationTime }
  else st

/-- Apply branch of the second (captured) while loop: like applyStep but
callbacks go onto the captured effect list. -/
def capturedApplyStep (props : JVal) (st : ProcPass) (u : UpdateRec) : ProcPass :=
  let g := getStateFromUpdate st.effectTag st.hasForceUpdate u st.resultState props
  let st := { st with resultState := g.state, effectTag := g.effectTag,
                      hasForceUpdate := g.hasForceUpdate }
  if u.callback then
    { st with effectTag := st.effectTag ||| Callback,
              capturedEffects := st.capturedEffects ++ [u] }
  else st

/-- The second while loop of processUpdateQueue, over the captured update
list. -/
def processCapturedLoop (renderExpirationTime : Nat) (props : JVal) :
    List UpdateRec → ProcPass → ProcPass
  | [], st => st
  | u :: rest, st =>
      if u.expirationTime < renderExpirationTime then
        processCapturedLoop renderExpirationTime props rest (capturedSkipStep st u rest)
      else
        processCapturedLoop renderExpirationTime props rest (capturedApplyStep props st u)

/-- Everything processUpdateQueue writes back: the rebased queue, the
memoizedState and remaining expirationTime stored on the work-in-progress
fiber, the final effectTag, and the global hasForceUpdate flag. -/
structure ProcResult where
  queue : UpdateQueueM
  memoizedState : JVal
  expirationTime : Nat
  effectTag : Nat
  hasForceUpdate : Bool

/-- processUpdateQueue(workInProgress, queue, props, instance,
renderExpirationTime) from ReactUpdateQueue.js.  The isShared flag stands
for the physical-identity test of ensureWorkInProgressQueueIsAClone
(queue === current.updateQueue); when set, the queue is cloned first.
hasForceUpdate is reset to false on entry as in the source. -/
def processUpdateQueue (isShared : Bool) (wipEffectTag : Nat)
    (queue : UpdateQueueM) (props : JVal) (renderExpirationTime : Nat) :
    ProcResult :=
  let queue := if isShared then cloneUpdateQueue queue else queue
  let st0 : ProcPass :=
    { resultState := queue.baseState
      effectTag := wipEffectTag
      hasForceUpdate := false
      newBaseState := queue.baseState
      newFirst := none
      newFirstCaptured := none
      newExpirationTime := NoWork
      effects := queue.effects
      capturedEffects := queue.capturedEffects }
  let st1 := processLoop renderExpirationTime props queue.updates st0
  let st2 := processCapturedLoop renderExpirationTime props queue.capturedUpdates st1
  let finalEffectTag :=
    if st2.newFirstCaptured.isSome then st2.effectTag ||| Callback
    else st2.effectTag
  let finalBaseState :=
    if st2.newFirst.isNone && st2.newFirstCaptured.isNone then st2.resultState
    else st2.newBaseState
  { queue :=
      { baseState := finalBaseState
        updates := st2.newFirst.getD []
        capturedUpdates := st2.newFirstCaptured.getD []
        effects := st2.effects
        capturedEffects := st2.capturedEffects }
    memoizedState := st2.resultState
    expirationTime := st2.newExpirationTime
    effectTag := finalEffectTag
    hasForceUpdate := st2.hasForceUpdate }

/-- commitUpdateQueue(finishedWork, finishedQueue, instance,
renderExpirationTime) from ReactUpdateQueue.js, restricted to its effect
on the queue structure: when the captured list is non-empty it is spliced
onto the tail of the normal list only if the normal list is itself
non-empty (lastUpdate !== null), the captured first/last pointers are
cleared either way, and both effect lists are cleared after their
callbacks run. -/
def commitUpdateQueue (finishedQueue : UpdateQueueM) : UpdateQueueM :=
  let q :=
    if finishedQueue.capturedUpdates.isEmpty then finishedQueue
    else if finishedQueue.updates.isEmpty then
      { finishedQueue with capturedUpdates := [] }
    else
      { finishedQueue with
          updates := finishedQueue.updates ++ finishedQueue.capturedUpdates
          capturedUpdates := [] }
  { q with effects := [], capturedEffects := [] }


/-- Effect of a single update on the state, ignoring the effect-tag and
force-update bookkeeping. -/
def applyUpdate (props s : JVal) (u : UpdateRec) : JVal :=
  (getStateFromUpdate NoEffect false u s props).state

/-- Folding a whole update list over a state. -/
def applyAll (props : JVal) (l : List UpdateRec) (s : JVal) : JVal :=
  l.foldl (applyUpdate props) s

theorem getStateFromUpdate_state_indep (et hf : Nat) (hb hb' : Bool)
    (u : UpdateRec) (s props : JVal) :
    (getStateFromUpdate et hb u s props).state =
    (getStateFromUpdate hf hb' u s props).state := by
  unfold getStateFromUpdate
  split_ifs <;> cases u.payload <;> dsimp only <;>
    first
      | rfl
      | (rename_i f; cases f s props <;> rfl)
      | (rename_i v; cases v <;> rfl)

theorem applyStep_newFirst (p : JVal) (st : ProcPass) (u : UpdateRec) :
    (applyStep p st u).newFirst = st.newFirst := by
  unfold applyStep; dsimp only; split <;> rfl

theorem applyStep_newBaseState (p : JVal) (st : ProcPass) (u : UpdateRec) :
    (applyStep p st u).newBaseState = st.newBaseState := by
  unfold applyStep; dsimp only; split <;> rfl

theorem applyStep_resultState (p : JVal) (st : ProcPass) (u : UpdateRec) :
    (applyStep p st u).resultState = applyUpdate p st.resultState u := by
  unfold applyStep applyUpdate
  dsimp only
  split <;> exact getStateFromUpdate_state_indep _ _ _ _ u st.resultState p

theorem skipStep_resultState (st : ProcPass) (u : UpdateRec) (rest : List UpdateRec) :
    (skipStep st u rest).resultState = st.resultState := by
  unfold skipStep; dsimp only; split_ifs <;> rfl

theorem skipStep_of_none (st : ProcPass) (u : UpdateRec) (rest : List UpdateRec)
    (h : st.newFirst = none) :
    (skipStep st u rest).newFirst = some (u :: rest) ∧
    (skipStep st u rest).newBaseState = st.resultState := by
  unfold skipStep
  dsimp only
  simp only [h, Option.isNone_none, if_true]
  split_ifs <;> exact ⟨rfl, rfl⟩

theorem skipStep_of_some (st : ProcPass) (u : UpdateRec) (rest : List UpdateRec)
    (h : st.newFirst.isSome) :
    (skipStep st u rest).newFirst = st.newFirst ∧
    (skipStep st u rest).newBaseState = st.newBaseState := by
  unfold skipStep
  dsimp only
  have hn : st.newFirst.isNone = false := by
    cases hfo : st.newFirst <;> simp [hfo] at h ⊢
  simp only [hn, Bool.false_eq_true, if_false]
  split_ifs <;> exact ⟨rfl, rfl⟩

/-- Once a first skipped update has been recorded, the rest of the normal
pass changes neither the recorded first update nor the snapshotted base
state. -/
theorem processLoop_after_skip (r : Nat) (p : JVal) (l : List UpdateRec) :
    ∀ st : ProcPass, st.newFirst.isSome →
      (processLoop r p l st).newFirst = st.newFirst ∧
      (processLoop r p l st).newBaseState = st.newBaseState := by
  induction l with
  | nil => intro st _; exact ⟨rfl, rfl⟩
  | cons u rest ih =>
      intro st h
      simp only [processLoop]
      by_cases hc : u.expirationTime < r
      · rw [if_pos hc]
        have hs := skipStep_of_some st u rest h
        have h2 : (skipStep st u rest).newFirst.isSome := by
          rw [hs.1]; exact h
        have := ih (skipStep st u rest) h2
        rw [this.1, this.2, hs.1, hs.2]
        exact ⟨rfl, rfl⟩
      · rw [if_neg hc]
        have h2 : (applyStep p st u).newFirst.isSome := by
          rw [applyStep_newFirst]; exact h
        have := ih (applyStep p st u) h2
        rw [this.1, this.2, applyStep_newFirst, applyStep_newBaseState]
        exact ⟨rfl, rfl⟩

/-- A normal pass in which every update qualifies applies the whole list
in order and records no skip. -/
theorem processLoop_noskip (r : Nat) (p : JVal) (l : List UpdateRec) :
    ∀ st : ProcPass, (∀ u ∈ l, ¬ u.expirationTime < r) →
      (processLoop r p l st).resultState = applyAll p l st.resultState ∧
      (processLoop r p l st).newFirst = st.newFirst ∧
      (processLoop r p l st).newBaseState = st.newBaseState := by
  induction l with
  | nil => intro st _; exact ⟨rfl, rfl, rfl⟩
  | cons u rest ih =>
      intro st hall
      have hc : ¬ u.expirationTime < r := hall u (by simp)
      simp only [processLoop]
      rw [if_neg hc]
      have hrest : ∀ v ∈ rest, ¬ v.expirationTime < r := by
        intro v hv; exact hall v (by simp [hv])
      have := ih (applyStep p st u) hrest
      refine ⟨?_, ?_, ?_⟩
      · rw [this.1, applyStep_resultState]
        rfl
      · rw [this.2.1, applyStep_newFirst]
      · rw [this.2.2, applyStep_newBaseState]

/-- Main decomposition of a partial normal pass started with no recorded
skip: either nothing was skipped and the result state is the full fold,
or the list splits as pre ++ suf with the recorded first update heading
suf, and folding suf over the snapshotted base state recovers the full
fold of the original list. -/
theorem processLoop_decompose (r : Nat) (p : JVal) (l : List UpdateRec) :
    ∀ st : ProcPass, st.newFirst = none →
      ((processLoop r p l st).newFirst = none ∧
        (processLoop r p l st).resultState = applyAll p l st.resultState) ∨
      (∃ pre suf, (processLoop r p l st).newFirst = some suf ∧ l = pre ++ suf ∧
         applyAll p suf (processLoop r p l st).newBaseState =
           applyAll p l st.resultState) := by
  induction l with
  | nil => intro st h; exact Or.inl ⟨h, rfl⟩
  | cons u rest ih =>
      intro st h
      simp only [processLoop]
      by_cases hc : u.expirationTime < r
      · rw [if_pos hc]
        have hs := skipStep_of_none st u rest h
        have h2 : (skipStep st u rest).newFirst.isSome := by rw [hs.1]; rfl
        have hrest := processLoop_after_skip r p rest (skipStep st u rest) h2
        refine Or.inr ⟨[], u :: rest, ?_, rfl, ?_⟩
        · rw [hrest.1, hs.1]
        · rw [hrest.2, hs.2]
      · rw [if_neg hc]
        have h2 : (applyStep p st u).newFirst = none := by
          rw [applyStep_newFirst]; exact h
        rcases ih (applyStep p st u) h2 with ⟨h1, h2'⟩ | ⟨pre, suf, h1, h2', h3⟩
        · refine Or.inl ⟨h1, ?_⟩
          rw [h2', applyStep_resultState]
          rfl
        · refine Or.inr ⟨u :: pre, suf, h1, by simp [h2'], ?_⟩
          rw [h3, applyStep_resultState]
          rfl

theorem applyStep_newFirstCaptured (p : JVal) (st : ProcPass) (u : UpdateRec) :
    (applyStep p st u).newFirstCaptured = st.newFirstCaptured := by
  unfold applyStep; dsimp only; split <;> rfl

theorem skipStep_newFirstCaptured (st : ProcPass) (u : UpdateRec) (rest : List UpdateRec) :
    (skipStep st u rest).newFirstCaptured = st.newFirstCaptured := by
  unfold skipStep; dsimp only; split_ifs <;> rfl

/-- The normal pass never touches the captured first-update pointer. -/
theorem processLoop_newFirstCaptured (r : Nat) (p : JVal) (l : List UpdateRec) :
    ∀ st : ProcPass, (processLoop r p l st).newFirstCaptured = st.newFirstCaptured := by
  induction l with
  | nil => intro st; rfl
  | cons u rest ih =>
      intro st
      simp only [processLoop]
      by_cases hc : u.expirationTime < r
      · rw [if_pos hc, ih, skipStep_newFirstCaptured]
      · rw [if_neg hc, ih, applyStep_newFirstCaptured]

/-- The initial loop state of processUpdateQueue for a given fiber
effectTag and (unshared, captured-free) queue. -/
def initPass (et : Nat) (q : UpdateQueueM) : ProcPass :=
  { resultState := q.baseState
    effectTag := et
    hasForceUpdate := false
    newBaseState := q.baseState
    newFirst := none
    newFirstCaptured := none
    newExpirationTime := NoWork
    effects := q.effects
    capturedEffects := q.capturedEffects }

theorem pq_memoized (et r : Nat) (q : UpdateQueueM) (props : JVal)
    (hq : q.capturedUpdates = []) :
    (processUpdateQueue false et q props r).memoizedState =
    (processLoop r props q.updates (initPass et q)).resultState := by
  simp only [processUpdateQueue, if_neg Bool.false_ne_true]
  rw [hq]
  rfl

theorem pq_updates (et r : Nat) (q : UpdateQueueM) (props : JVal)
    (hq : q.capturedUpdates = []) :
    (processUpdateQueue false et q props r).queue.updates =
    (processLoop r props q.updates (initPass et q)).newFirst.getD [] := by
  simp only [processUpdateQueue, if_neg Bool.false_ne_true]
  rw [hq]
  rfl

theorem pq_captured (et r : Nat) (q : UpdateQueueM) (props : JVal)
    (hq : q.capturedUpdates = []) :
    (processUpdateQueue false et q props r).queue.capturedUpdates = [] := by
  simp only [processUpdateQueue, if_neg Bool.false_ne_true]
  rw [hq]
  show ((processCapturedLoop r props [] _).newFirstCaptured.getD []) = []
  show ((processLoop r props q.updates (initPass et q)).newFirstCaptured.getD []) = []
  rw [processLoop_newFirstCaptured]
  rfl

theorem pq_baseState (et r : Nat) (q : UpdateQueueM) (props : JVal)
    (hq : q.capturedUpdates = []) :
    (processUpdateQueue false et q props r).queue.baseState =
    (if (processLoop r props q.updates (initPass et q)).newFirst.isNone then
      (processLoop r props q.updates (initPass et q)).resultState
     else (processLoop r props q.updates (initPass et q)).newBaseState) := by
  simp only [processUpdateQueue, if_neg Bool.false_ne_true]
  rw [hq]
  show (if ((processLoop r props q.updates (initPass et q)).newFirst.isNone &&
           (processLoop r props q.updates (initPass et q)).newFirstCaptured.isNone) = true then _ else _) = _
  rw [processLoop_newFirstCaptured]
  show (if ((processLoop r props q.updates (initPass et q)).newFirst.isNone && true) = true
        then _ else _) = _
  rw [Bool.and_true]
  rfl

/-- Two-pass determinism of the update queue (spec P2): running a partial
pass at any threshold r1 over a captured-free queue, then a pass at a
threshold r2 urgent enough to admit every enqueued update, materializes
the exact state that a single full pass at r2 would have produced. -/
theorem processUpdateQueue_two_pass
    (s0 : JVal) (l : List UpdateRec) (props : JVal) (et1 et2 r1 r2 : Nat)
    (hfull : ∀ u ∈ l, r2 ≤ u.expirationTime) :
    (processUpdateQueue false et2
        (processUpdateQueue false et1 ⟨s0, l, [], [], []⟩ props r1).queue
        props r2).memoizedState =
    (processUpdateQueue false et2 (⟨s0, l, [], [], []⟩ : UpdateQueueM) props r2).memoizedState := by
  have hno2 : ∀ u ∈ l, ¬ u.expirationTime < r2 := fun u hu => Nat.not_lt.mpr (hfull u hu)
  -- the right-hand side: one full pass applies everything in order
  have hR : (processUpdateQueue false et2 (⟨s0, l, [], [], []⟩ : UpdateQueueM) props r2).memoizedState
      = applyAll props l s0 := by
    rw [pq_memoized _ _ _ _ rfl]
    exact (processLoop_noskip r2 props l _ hno2).1
  rw [hR]
  -- the left-hand side
  set q1 := (processUpdateQueue false et1 (⟨s0, l, [], [], []⟩ : UpdateQueueM) props r1).queue with hq1
  have hcap : q1.capturedUpdates = [] := pq_captured _ _ _ _ rfl
  rw [pq_memoized _ _ _ _ hcap]
  set st1 := processLoop r1 props l (initPass et1 ⟨s0, l, [], [], []⟩) with hst1
  have hupd : q1.updates = st1.newFirst.getD [] := pq_updates _ _ _ _ rfl
  have hbase : q1.baseState =
      (if st1.newFirst.isNone then st1.resultState else st1.newBaseState) :=
    pq_baseState _ _ _ _ rfl
  rcases processLoop_decompose r1 props l (initPass et1 ⟨s0, l, [], [], []⟩) rfl with
    ⟨h1, h2⟩ | ⟨pre, suf, h1, h2, h3⟩
  · -- nothing was skipped in the first pass
    rw [hupd]
    rw [show st1.newFirst = none from h1]
    have hbase' : q1.baseState = st1.resultState := by
      rw [hbase, show st1.newFirst = none from h1]; rfl
    show (processLoop r2 props (Option.getD none []) (initPass et2 q1)).resultState = _
    show (initPass et2 q1).resultState = _
    show q1.baseState = _
    rw [hbase']
    exact h2
  · -- the first pass skipped; replay the recorded suffix over the rebased base state
    rw [hupd, show st1.newFirst = some suf from h1]
    have hbase' : q1.baseState = st1.newBaseState := by
      rw [hbase, show st1.newFirst = some suf from h1]; rfl
    have hnosuf : ∀ u ∈ suf, ¬ u.expirationTime < r2 := by
      intro u hu
      exact hno2 u (by rw [h2]; exact List.mem_append_right pre hu)
    have := (processLoop_noskip r2 props suf (initPass et2 q1) hnosuf).1
    show (processLoop r2 props (Option.getD (some suf) []) (initPass et2 q1)).resultState = _
    show (processLoop r2 props suf (initPass et2 q1)).resultState = _
    rw [this]
    show applyAll props suf q1.baseState = _
    rw [hbase']
    exact h3

/-- The update used by the worked example of spec section P2: appending a
fixed letter to a string state, encoded exactly as the source would see
it, namely a ReplaceState update whose payload is an updater function of
(previousState, nextProps). -/
def appendLetterUpdate (letter : String) (expirationTime : Nat) : UpdateRec :=
  { expirationTime := expirationTime
    tag := ReplaceState
    payload := .pfn (fun prev _ =>
      match prev with
      | .jstr s => .jstr (s ++ letter)
      | _ => .jstr letter)
    callback := false }

/-- Urgency encoding of the example: priority 1 is the more urgent level,
so it carries the numerically larger expirationTime. -/
def prio1 : Nat := 2
/-- Urgency encoding of the example: priority 2, the less urgent level. -/
def prio2 : Nat := 1

/-- The example queue of spec section P2: base state the empty string and
updates A@prio1, B@prio2, C@prio1, D@prio2 in insertion order. -/
def exampleQueue : UpdateQueueM :=
  { baseState := JVal.jstr ""
    updates := [appendLetterUpdate "A" prio1, appendLetterUpdate "B" prio2,
                appendLetterUpdate "C" prio1, appendLetterUpdate "D" prio2]
    capturedUpdates := []
    effects := []
    capturedEffects := [] }

/-- C1: For every base state and every fixed insertion-ordered sequence of
enqueued updates, processing the queue in a partial pass followed by a
full-urgency pass yields the same final state as one full-urgency pass;
in particular, on base state "" with updates A@prio1, B@prio2, C@prio1,
D@prio2 (merge = string concatenation), processUpdateQueue at priority 1
produces memoizedState "AC", rebases baseState to "A" and leaves
remaining priority prio2, and processing the remaining queue at priority
2 produces "ABCD". -/
theorem claim_C1_queue_two_pass_determinism :
    (∀ (s0 : JVal) (l : List UpdateRec) (props : JVal) (et1 et2 r1 r2 : Nat),
        (∀ u ∈ l, r2 ≤ u.expirationTime) →
        (processUpdateQueue false et2
            (processUpdateQueue false et1 ⟨s0, l, [], [], []⟩ props r1).queue
            props r2).memoizedState =
        (processUpdateQueue false et2 (⟨s0, l, [], [], []⟩ : UpdateQueueM) props r2).memoizedState) ∧
    (processUpdateQueue false NoEffect exampleQueue JVal.jnull prio1).memoizedState = JVal.jstr "AC" ∧
    (processUpdateQueue false NoEffect exampleQueue JVal.jnull prio1).queue.baseState = JVal.jstr "A" ∧
    (processUpdateQueue false NoEffect exampleQueue JVal.jnull prio1).expirationTime = prio2 ∧
    (processUpdateQueue false NoEffect
        (processUpdateQueue false NoEffect exampleQueue JVal.jnull prio1).queue
        JVal.jnull prio2).memoizedState = JVal.jstr "ABCD" :=
  ⟨fun s0 l props et1 et2 r1 r2 h => processUpdateQueue_two_pass s0 l props et1 et2 r1 r2 h,
   rfl, rfl, rfl, rfl⟩

/-- Witness for C1: the determinism statement instantiated at the worked
example, with its urgency hypothesis discharged concretely. -/
theorem claim_C1_witness :
    (∀ u ∈ exampleQueue.updates, prio2 ≤ u.expirationTime) ∧
    (processUpdateQueue false NoEffect
        (processUpdateQueue false NoEffect exampleQueue JVal.jnull prio1).queue
        JVal.jnull prio2).memoizedState =
    (processUpdateQueue false NoEffect exampleQueue JVal.jnull prio2).memoizedState := by
  have hmem : ∀ u ∈ exampleQueue.updates, prio2 ≤ u.expirationTime := by
    intro u hu
    simp only [exampleQueue, List.mem_cons, List.not_mem_nil, or_false] at hu
    rcases hu with h | h | h | h <;> subst h <;> decide
  exact ⟨hmem, claim_C1_queue_two_pass_determinism.1 (JVal.jstr "")
    exampleQueue.updates JVal.jnull NoEffect NoEffect prio1 prio2 hmem⟩

/-- JS property lookup on an object field list: the first binding of the
key wins (field lists built by setField never hold duplicate keys). -/
def jGet : List (String × JVal) → String → Option JVal
  | [], _ => none
  | (k', v) :: rest, k => if k' = k then some v else jGet rest k

/-- Field list of an object value (empty for non-objects). -/
def jFields : JVal → List (String × JVal)
  | .jobj fields => fields
  | _ => []

theorem jGet_setField_same (l : List (String × JVal)) (k : String) (v : JVal) :
    jGet (setField l k v) k = some v := by
  induction l with
  | nil => simp [setField, jGet]
  | cons kv rest ih =>
      obtain ⟨k', v'⟩ := kv
      by_cases h : k' = k
      · simp [setField, jGet, h]
      · simp [setField, jGet, h, ih]

theorem jGet_setField_other (l : List (String × JVal)) (k k2 : String) (v : JVal)
    (h : k ≠ k2) :
    jGet (setField l k v) k2 = jGet l k2 := by
  induction l with
  | nil => simp [setField, jGet, h]
  | cons kv rest ih =>
      obtain ⟨k', v'⟩ := kv
      by_cases h' : k' = k
      · subst h'; simp [setField, jGet, h]
      · simp [setField, jGet, h', ih]

theorem jGet_eq_none_of_not_mem (l : List (String × JVal)) (k : String)
    (h : k ∉ l.map Prod.fst) :
    jGet l k = none := by
  induction l with
  | nil => rfl
  | cons kv rest ih =>
      obtain ⟨k', v'⟩ := kv
      simp only [List.map_cons, List.mem_cons] at h
      push_neg at h
      simp only [jGet, ih h.2]
      rw [if_neg (fun hh => h.1 hh.symm)]

/-- Looking a key up after folding a source field list onto an
accumulator with setField: bindings of the source win (the source has no
duplicate keys), everything else falls through to the accumulator. -/
theorem jGet_foldl_setField (src : List (String × JVal)) (k : String) :
    ∀ acc : List (String × JVal), (src.map Prod.fst).Nodup →
      jGet (src.foldl (fun a kv => setField a kv.1 kv.2) acc) k =
        (match jGet src k with
         | some v => some v
         | none => jGet acc k) := by
  induction src with
  | nil => intro acc _; rfl
  | cons kv rest ih =>
      intro acc hnd
      obtain ⟨k1, v1⟩ := kv
      simp only [List.map_cons, List.nodup_cons] at hnd
      simp only [List.foldl_cons]
      rw [ih (setField acc k1 v1) hnd.2]
      by_cases h : k1 = k
      · subst h
        have hnone : jGet rest k1 = none :=
          jGet_eq_none_of_not_mem rest k1 hnd.1
        simp [jGet, hnone, jGet_setField_same]
      · simp [jGet, h, jGet_setField_other acc k1 k v1 h]

/-- Shallow-merge lookup semantics of objectAssign on two objects with
duplicate-free keys: bindings of the source win, keys absent from the
source keep the value of the target. -/
theorem jGet_objectAssign (bf pf : List (String × JVal)) (k : String)
    (hbf : (bf.map Prod.fst).Nodup) (hpf : (pf.map Prod.fst).Nodup) :
    jGet (jFields (objectAssign (JVal.jobj bf) (JVal.jobj pf))) k =
      (match jGet pf k with
       | some v => some v
       | none => jGet bf k) := by
  show jGet ((bf ++ pf).foldl (fun a kv => setField a kv.1 kv.2) []) k = _
  rw [List.foldl_append]
  rw [jGet_foldl_setField pf k _ hpf]
  rw [jGet_foldl_setField bf k [] hbf]
  cases jGet pf k <;> cases jGet bf k <;> rfl

/-- Evaluation of getStateFromUpdate on a merge-partial-state
(UpdateState) update: the payload (invoked on (previousState, props)
when it is a function) gives a partial state; null and undefined are
no-ops, anything else is shallow-merged over the previous state. -/
theorem getStateFromUpdate_updateState (et : Nat) (hf cb : Bool) (exp : Nat)
    (payload : JPayload) (prev props : JVal) :
    (getStateFromUpdate et hf ⟨exp, UpdateState, payload, cb⟩ prev props).state =
      (match (match payload with | .pfn f => f prev props | .pval v => v) with
       | JVal.jnull => prev
       | JVal.jundefined => prev
       | p => objectAssign prev p) := by
  unfold getStateFromUpdate
  rw [if_neg (fun hh => by exact nomatch hh), if_pos (Or.inr rfl)]
  dsimp only
  rw [if_neg (fun hh => by exact nomatch hh)]
  cases payload with
  | pfn f =>
      show (match f prev props with
         | JVal.jnull => GSFU.mk prev et hf
         | JVal.jundefined => GSFU.mk prev et hf
         | p => GSFU.mk (objectAssign prev p) et hf).state =
        (match f prev props with
         | JVal.jnull => prev
         | JVal.jundefined => prev
         | p => objectAssign prev p)
      cases f prev props <;> rfl
  | pval v =>
      show (match v with
         | JVal.jnull => GSFU.mk prev et hf
         | JVal.jundefined => GSFU.mk prev et hf
         | p => GSFU.mk (objectAssign prev p) et hf).state =
        (match v with
         | JVal.jnull => prev
         | JVal.jundefined => prev
         | p => objectAssign prev p)
      cases v <;> rfl

/-- C3: For a merge-partial-state (UpdateState) update, a function
payload is invoked with (previousState, props) and a value payload is
taken directly; a null or undefined partial state is a no-op, and
otherwise the result is the shallow merge of the partial state over the
previous state, in which fields present in the partial state win and
keys absent from it keep their previous values. -/
theorem claim_C3_merge_partial_state (et : Nat) (hf cb : Bool) (exp : Nat)
    (payload : JPayload) (prev props : JVal) :
    let u : UpdateRec := ⟨exp, UpdateState, payload, cb⟩
    let partialState := match payload with | .pfn f => f prev props | .pval v => v
    let st := (getStateFromUpdate et hf u prev props).state
    ((partialState = JVal.jnull ∨ partialState = JVal.jundefined) → st = prev) ∧
    ((partialState ≠ JVal.jnull ∧ partialState ≠ JVal.jundefined) →
      st = objectAssign prev partialState) ∧
    (∀ pf bf, partialState = JVal.jobj pf → prev = JVal.jobj bf →
      (pf.map Prod.fst).Nodup → (bf.map Prod.fst).Nodup →
      ∀ k, jGet (jFields st) k =
        (match jGet pf k with
         | some v => some v
         | none => jGet bf k)) := by
  intro u partialState st
  have hst : st = (match partialState with
      | JVal.jnull => prev
      | JVal.jundefined => prev
      | p => objectAssign prev p) :=
    getStateFromUpdate_updateState et hf cb exp payload prev props
  refine ⟨?_, ?_, ?_⟩
  · rintro (h | h) <;> rw [hst, h]
  · rintro ⟨h1, h2⟩
    rw [hst]
    cases hp : partialState <;>
      first
        | rfl
        | (exfalso; exact h1 hp)
        | (exfalso; exact h2 hp)
  · intro pf bf hpf hbf hndpf hndbf k
    rw [hst, hpf, hbf]
    exact jGet_objectAssign bf pf k hndbf hndpf

/-- Witness for C3: a concrete merge of \x7ba: 1\x7d over \x7ba: 0, b: 2\x7d where
the partial state wins on key a, key b keeps its previous value, and a
null partial state leaves the previous state unchanged. -/
theorem claim_C3_witness :
    (getStateFromUpdate 0 false
        ⟨0, UpdateState, .pval (JVal.jobj [("a", JVal.jnum 1)]), false⟩
        (JVal.jobj [("a", JVal.jnum 0), ("b", JVal.jnum 2)]) JVal.jnull).state =
      objectAssign (JVal.jobj [("a", JVal.jnum 0), ("b", JVal.jnum 2)])
        (JVal.jobj [("a", JVal.jnum 1)]) ∧
    jGet (jFields (getStateFromUpdate 0 false
        ⟨0, UpdateState, .pval (JVal.jobj [("a", JVal.jnum 1)]), false⟩
        (JVal.jobj [("a", JVal.jnum 0), ("b", JVal.jnum 2)]) JVal.jnull).state) "a" =
      some (JVal.jnum 1) ∧
    jGet (jFields (getStateFromUpdate 0 false
        ⟨0, UpdateState, .pval (JVal.jobj [("a", JVal.jnum 1)]), false⟩
        (JVal.jobj [("a", JVal.jnum 0), ("b", JVal.jnum 2)]) JVal.jnull).state) "b" =
      some (JVal.jnum 2) ∧
    (getStateFromUpdate 0 false ⟨0, UpdateState, .pval JVal.jnull, false⟩
        (JVal.jobj [("a", JVal.jnum 0)]) JVal.jnull).state =
      JVal.jobj [("a", JVal.jnum 0)] := by
  have h := claim_C3_merge_partial_state 0 false false 0
    (.pval (JVal.jobj [("a", JVal.jnum 1)]))
    (JVal.jobj [("a", JVal.jnum 0), ("b", JVal.jnum 2)]) JVal.jnull
  have hmerge := h.2.1 ⟨(fun hh => nomatch hh), (fun hh => nomatch hh)⟩
  have hlook := h.2.2 [("a", JVal.jnum 1)] [("a", JVal.jnum 0), ("b", JVal.jnum 2)]
    rfl rfl (by decide) (by decide)
  have hnull := (claim_C3_merge_partial_state 0 false false 0
    (.pval JVal.jnull) (JVal.jobj [("a", JVal.jnum 0)]) JVal.jnull).1 (Or.inl rfl)
  refine ⟨hmerge, ?_, ?_, hnull⟩
  · rw [hlook "a"]; rfl
  · rw [hlook "b"]; rfl

/-- The concrete queue refuting C4 as stated: an empty normal list and a
single pending captured update. -/
def counterexampleQueueC4 : UpdateQueueM :=
  { baseState := JVal.jstr ""
    updates := []
    capturedUpdates := [⟨1, UpdateState, .pval JVal.jnull, false⟩]
    effects := []
    capturedEffects := [] }

/-- Counterexample to C4 as stated: on a finished queue whose captured
list is non-empty but whose normal list is empty, commitUpdateQueue
clears the captured pointers without splicing, so the pending captured
update is not reachable from firstUpdate afterwards. -/
theorem claim_C4_counterexample :
    counterexampleQueueC4.capturedUpdates.length = 1 ∧
    (commitUpdateQueue counterexampleQueueC4).updates = [] ∧
    (commitUpdateQueue counterexampleQueueC4).capturedUpdates = [] :=
  ⟨rfl, rfl, rfl⟩

/-- C4 (amended): commit splices the captured list onto the tail of the
normal list, keeping every captured update reachable, only when the
normal list is non-empty; when the normal list is empty the captured
pointers are cleared without splicing and the captured updates are
dropped.  The effect lists are cleared in every case. -/
theorem claim_C4_commit_splices_captured (q : UpdateQueueM)
    (hcap : q.capturedUpdates ≠ []) :
    ((q.updates ≠ [] →
       (commitUpdateQueue q).updates = q.updates ++ q.capturedUpdates) ∧
     (q.updates = [] → (commitUpdateQueue q).updates = []) ∧
     (commitUpdateQueue q).capturedUpdates = [] ∧
     (commitUpdateQueue q).effects = [] ∧
     (commitUpdateQueue q).capturedEffects = []) := by
  unfold commitUpdateQueue
  have hcap' : q.capturedUpdates.isEmpty = false := by
    cases hv : q.capturedUpdates with
    | nil => exact absurd hv hcap
    | cons a l => rfl
  rw [hcap']
  by_cases hupd : q.updates = []
  · have : q.updates.isEmpty = true := by rw [hupd]; rfl
    rw [this]
    exact ⟨fun hne => absurd hupd hne, fun _ => by simp [hupd], rfl, rfl, rfl⟩
  · have : q.updates.isEmpty = false := by
      cases hv : q.updates with
      | nil => exact absurd hv hupd
      | cons a l => rfl
    rw [this]
    exact ⟨fun _ => rfl, fun h => absurd h hupd, rfl, rfl, rfl⟩

/-- Witness for the amended C4: a queue with one normal and one captured
update; after commit the captured update sits at the tail of the normal
list and the captured list is empty. -/
theorem claim_C4_witness :
    (commitUpdateQueue
        ⟨JVal.jstr "", [⟨2, UpdateState, .pval JVal.jnull, false⟩],
         [⟨1, UpdateState, .pval JVal.jundefined, false⟩], [], []⟩).updates =
      [⟨2, UpdateState, .pval JVal.jnull, false⟩,
       ⟨1, UpdateState, .pval JVal.jundefined, false⟩] ∧
    (commitUpdateQueue
        ⟨JVal.jstr "", [⟨2, UpdateState, .pval JVal.jnull, false⟩],
         [⟨1, UpdateState, .pval JVal.jundefined, false⟩], [], []⟩).capturedUpdates = [] := by
  have h := claim_C4_commit_splices_captured
    ⟨JVal.jstr "", [⟨2, UpdateState, .pval JVal.jnull, false⟩],
     [⟨1, UpdateState, .pval JVal.jundefined, false⟩], [], []⟩
    (by intro hh; cases hh)
  exact ⟨h.1 (by intro hh; cases hh), h.2.2.1⟩

/-- A heap node of the persistent update list as seen by enqueueUpdate:
only the next pointer matters for the sharing structure (payloads live in
the value model above). -/
structure UNode where
  next : Option Nat
deriving Repr, DecidableEq

/-- An UpdateQueue object as seen by enqueueUpdate: base state plus the
four list pointers it reads and writes (effect pointers stay null
throughout enqueueUpdate and are omitted). -/
structure QueueObj where
  baseState : JVal
  firstUpdate : Option Nat
  lastUpdate : Option Nat
  firstCapturedUpdate : Option Nat
  lastCapturedUpdate : Option Nat

/-- The mutable store backing enqueueUpdate: update nodes and queue
objects addressed by index (standing for JS object identity). -/
structure EnqWorld where
  unodes : List UNode
  queues : List QueueObj

/-- The next pointer of node i (none when i is unallocated). -/
def nextOf (w : EnqWorld) (i : Nat) : Option Nat :=
  match w.unodes.get? i with
  | some n => n.next
  | none => none

/-- Read a queue object (a default empty object for unallocated ids). -/
def getQueue (w : EnqWorld) (q : Nat) : QueueObj :=
  w.queues.getD q ⟨JVal.jnull, none, none, none, none⟩

/-- Overwrite the next pointer of node i. -/
def setUNodeNext (w : EnqWorld) (i : Nat) (nx : Option Nat) : EnqWorld :=
  { w with unodes := w.unodes.set i ⟨nx⟩ }

/-- Overwrite a queue object. -/
def setQueue (w : EnqWorld) (q : Nat) (qo : QueueObj) : EnqWorld :=
  { w with queues := w.queues.set q qo }

/-- createUpdateQueue(baseState) allocated on the heap; returns the new
object id. -/
def createUpdateQueueW (w : EnqWorld) (baseState : JVal) : EnqWorld × Nat :=
  ({ w with queues := w.queues ++ [⟨baseState, none, none, none, none⟩] },
   w.queues.length)

/-- cloneUpdateQueue(currentQueue) allocated on the heap: shares the base
state and the normal-list pointers of the source, clears the captured
pointers; returns the new object id. -/
def cloneUpdateQueueW (w : EnqWorld) (src : Nat) : EnqWorld × Nat :=
  let q := getQueue w src
  ({ w with queues :=
      w.queues ++ [⟨q.baseState, q.firstUpdate, q.lastUpdate, none, none⟩] },
   w.queues.length)

/-- appendUpdateToQueue(queue, update) from ReactUpdateQueue.js: append
node u at the end of the normal list; on a non-empty queue this mutates
the next pointer of the old tail node. -/
def appendUpdateToQueue (w : EnqWorld) (q : Nat) (u : Nat) : EnqWorld :=
  let qo := getQueue w q
  match qo.lastUpdate with
  | none => setQueue w q { qo with firstUpdate := some u, lastUpdate := some u }
  | some t =>
      let w := setUNodeNext w t (some u)
      setQueue w q { qo with lastUpdate := some u }

/-- enqueueUpdate(fiber, update) from ReactUpdateQueue.js.  The fiber is
given by its updateQueue reference and memoizedState, together with the
same data for its alternate when one exists; u is the id of the already
created update node.  Returns the new world plus the queue now referenced
by the fiber (queue1) and, when the alternate exists, by the alternate
(queue2). -/
def enqueueUpdate (w : EnqWorld) (fiberQueue : Option Nat) (fiberMemo : JVal)
    (alt : Option (Option Nat × JVal)) (u : Nat) :
    EnqWorld × Nat × Option Nat :=
  match alt with
  | none =>
      let wq :=
        match fiberQueue with
        | some q => (w, q)
        | none => createUpdateQueueW w fiberMemo
      (appendUpdateToQueue wq.1 wq.2 u, wq.2, none)
  | some (altQueue, altMemo) =>
      let wqq :=
        match fiberQueue, altQueue with
        | none, none =>
            let wa := createUpdateQueueW w fiberMemo
            let wb := createUpdateQueueW wa.1 altMemo
            (wb.1, wa.2, wb.2)
        | none, some qb =>
            let wa := cloneUpdateQueueW w qb
            (wa.1, wa.2, qb)
        | some qa, none =>
            let wb := cloneUpdateQueueW w qa
            (wb.1, qa, wb.2)
        | some qa, some qb => (w, qa, qb)
      let w := wqq.1
      let q1 := wqq.2.1
      let q2 := wqq.2.2
      if q1 = q2 then
        (appendUpdateToQueue w q1 u, q1, some q2)
      else if (getQueue w q1).lastUpdate = none ∨ (getQueue w q2).lastUpdate = none then
        (appendUpdateToQueue (appendUpdateToQueue w q1 u) q2 u, q1, some q2)
      else
        let w := appendUpdateToQueue w q1 u
        (setQueue w q2 { getQueue w q2 with lastUpdate := some u }, q1, some q2)

/-- Chains of the persistent singly-linked update list: starting at node
i and following next pointers visits exactly the nodes of l, ending at a
node whose next pointer is null. -/
inductive IsChain (nf : Nat → Option Nat) : Nat → List Nat → Prop where
  | last (i : Nat) : nf i = none → IsChain nf i [i]
  | cons (i j : Nat) (l : List Nat) : nf i = some j → IsChain nf j l →
      IsChain nf i (i :: l)

/-- A queue object of the world represents the node list l through its
firstUpdate and lastUpdate pointers. -/
def QueueReps (w : EnqWorld) (q : Nat) (l : List Nat) : Prop :=
  (l = [] ∧ (getQueue w q).firstUpdate = none ∧ (getQueue w q).lastUpdate = none) ∨
  (∃ i t, (getQueue w q).firstUpdate = some i ∧ IsChain (nextOf w) i l ∧
     l.getLast? = some t ∧ (getQueue w q).lastUpdate = some t)

theorem IsChain.ne_nil (nf : Nat → Option Nat) (i : Nat) (l : List Nat)
    (h : IsChain nf i l) : l ≠ [] := by
  cases h <;> simp

theorem IsChain.head (nf : Nat → Option Nat) (i : Nat) (l : List Nat)
    (h : IsChain nf i l) : ∃ l', l = i :: l' := by
  cases h with
  | last _ _ => exact ⟨[], rfl⟩
  | cons _ j l' _ _ => exact ⟨l', rfl⟩

theorem getLast?_cons_of_ne {α : Type} (a : α) (l : List α) (h : l ≠ []) :
    (a :: l).getLast? = l.getLast? := by
  cases l with
  | nil => exact absurd rfl h
  | cons b m => rfl

theorem IsChain.last_next_none (nf : Nat → Option Nat) :
    ∀ (i t : Nat) (l : List Nat), IsChain nf i l → l.getLast? = some t →
      nf t = none := by
  intro i t l h
  induction h with
  | last j hj =>
      intro hl
      have hjt : j = t := by
        rw [show ([j] : List Nat).getLast? = some j from rfl] at hl
        exact Option.some.inj hl
      rwa [← hjt]
  | cons j k l' hj hch ih =>
      intro hl
      have hne : l' ≠ [] := hch.ne_nil _ _ _
      rw [getLast?_cons_of_ne j l' hne] at hl
      exact ih hl

theorem IsChain.congr (nf nf' : Nat → Option Nat) :
    ∀ (i : Nat) (l : List Nat), IsChain nf i l →
      (∀ x ∈ l, nf' x = nf x) → IsChain nf' i l := by
  intro i l h
  induction h with
  | last j hj =>
      intro hagree
      exact IsChain.last j ((hagree j (by simp)).trans hj)
  | cons j k l' hj hch ih =>
      intro hagree
      refine IsChain.cons j k l' ((hagree j (by simp)).trans hj) ?_
      exact ih fun x hx => hagree x (by simp [hx])

/-- Appending a fresh node u after the tail t of a chain extends the
chain by exactly u. -/
theorem IsChain.append (nf nf' : Nat → Option Nat) (t u : Nat) :
    ∀ (i : Nat) (l : List Nat), IsChain nf i l → l.getLast? = some t →
      l.Nodup → u ∉ l →
      (∀ x ∈ l, x ≠ t → nf' x = nf x) → nf' t = some u → nf' u = none →
      IsChain nf' i (l ++ [u]) := by
  intro i l h
  induction h with
  | last j hj =>
      intro hl _ _ _ ht hu
      have hjt : j = t := by
        rw [show ([j] : List Nat).getLast? = some j from rfl] at hl
        exact Option.some.inj hl
      subst hjt
      exact IsChain.cons j u [u] ht (IsChain.last u hu)
  | cons j k l' hj hch ih =>
      intro hl hnd hu hagree ht hun
      have hne : l' ≠ [] := hch.ne_nil _ _ _
      rw [getLast?_cons_of_ne j l' hne] at hl
      have htl' : t ∈ l' := List.mem_of_mem_getLast? hl
      have hjt : j ≠ t := by
        intro hh
        subst hh
        exact (List.nodup_cons.mp hnd).1 htl'
      refine IsChain.cons j k (l' ++ [u]) ((hagree j (by simp) hjt).trans hj) ?_
      exact ih hl (List.nodup_cons.mp hnd).2 (fun hh => hu (by simp [hh]))
        (fun x hx => hagree x (by simp [hx])) ht hun

theorem nextOf_setQueue (w : EnqWorld) (q : Nat) (qo : QueueObj) :
    nextOf (setQueue w q qo) = nextOf w := rfl

theorem getQueue_setUNodeNext (w : EnqWorld) (i : Nat) (nx : Option Nat) :
    getQueue (setUNodeNext w i nx) = getQueue w := rfl

theorem getQueue_setQueue_self (w : EnqWorld) (q : Nat) (qo : QueueObj)
    (h : q < w.queues.length) :
    getQueue (setQueue w q qo) q = qo := by
  unfold getQueue setQueue
  simp [List.getD, List.getElem?_set_self, h]

theorem getQueue_setQueue_ne (w : EnqWorld) (q q' : Nat) (qo : QueueObj)
    (h : q ≠ q') :
    getQueue (setQueue w q qo) q' = getQueue w q' := by
  unfold getQueue setQueue
  simp [List.getD, List.getElem?_set_ne h]

theorem nextOf_setUNodeNext_self (w : EnqWorld) (i : Nat) (nx : Option Nat)
    (h : i < w.unodes.length) :
    nextOf (setUNodeNext w i nx) i = nx := by
  unfold nextOf setUNodeNext
  simp [List.get?_eq_getElem?, List.getElem?_set_self, h]

theorem nextOf_setUNodeNext_ne (w : EnqWorld) (i j : Nat) (nx : Option Nat)
    (h : i ≠ j) :
    nextOf (setUNodeNext w i nx) j = nextOf w j := by
  unfold nextOf setUNodeNext
  simp [List.get?_eq_getElem?, List.getElem?_set_ne h]

theorem getQueue_appendQueues (w : EnqWorld) (qo : QueueObj) (q : Nat)
    (h : q < w.queues.length) :
    getQueue { w with queues := w.queues ++ [qo] } q = getQueue w q := by
  unfold getQueue
  simp [List.getD, List.getElem?_append_left h]

theorem getQueue_appendQueues_new (w : EnqWorld) (qo : QueueObj) :
    getQueue { w with queues := w.queues ++ [qo] } w.queues.length = qo := by
  unfold getQueue
  simp [List.getD]

theorem nextOf_appendQueues (w : EnqWorld) (qo : QueueObj) :
    nextOf { w with queues := w.queues ++ [qo] } = nextOf w := rfl

/-- Transport of the representation predicate along worlds that agree on
the queue object and on all next pointers. -/
theorem QueueReps.transport (w w' : EnqWorld) (q q' : Nat) (l : List Nat)
    (h1 : getQueue w' q' = getQueue w q) (h2 : nextOf w' = nextOf w)
    (h : QueueReps w q l) : QueueReps w' q' l := by
  unfold QueueReps at h ⊢
  rw [h1, h2]
  exact h

/-- appendUpdateToQueue on a queue representing l makes it represent
l ++ [u], for a fresh u. -/
theorem queueReps_append (w : EnqWorld) (q u : Nat) (l : List Nat)
    (hq : q < w.queues.length) (hrep : QueueReps w q l)
    (hnd : l.Nodup) (hu : u ∉ l)
    (hbound : ∀ x ∈ l, x < w.unodes.length)
    (hun : nextOf w u = none) :
    QueueReps (appendUpdateToQueue w q u) q (l ++ [u]) := by
  rcases hrep with ⟨hl, hf, hlast⟩ | ⟨i, t, hf, hchain, hgl, hlast⟩
  · subst hl
    simp only [appendUpdateToQueue, hlast]
    refine Or.inr ⟨u, u, ?_, ?_, ?_, ?_⟩
    · rw [getQueue_setQueue_self _ _ _ hq]
    · rw [nextOf_setQueue]
      exact IsChain.last u hun
    · rfl
    · rw [getQueue_setQueue_self _ _ _ hq]
  · simp only [appendUpdateToQueue, hlast]
    have htmem : t ∈ l := List.mem_of_mem_getLast? hgl
    have htb : t < w.unodes.length := hbound t htmem
    have hut : u ≠ t := fun hh => hu (hh ▸ htmem)
    refine Or.inr ⟨i, u, ?_, ?_, ?_, ?_⟩
    · rw [getQueue_setQueue_self]
      exact hf
      exact hq
    · rw [nextOf_setQueue]
      refine IsChain.append (nextOf w) (nextOf (setUNodeNext w t (some u))) t u i l
        hchain hgl hnd hu ?_ ?_ ?_
      · intro x _ hxt
        exact nextOf_setUNodeNext_ne w t x (some u) (fun hh => hxt hh.symm)
      · exact nextOf_setUNodeNext_self w t (some u) htb
      · rw [nextOf_setUNodeNext_ne w t u (some u) (fun hh => hut hh.symm)]
        exact hun
    · simp
    · rw [getQueue_setQueue_self]
      exact hq

theorem appendUpdateToQueue_queues_length (w : EnqWorld) (q u : Nat) :
    (appendUpdateToQueue w q u).queues.length = w.queues.length := by
  unfold appendUpdateToQueue
  cases h : (getQueue w q).lastUpdate <;>
    simp [h, setQueue, setUNodeNext, List.length_set]

theorem appendUpdateToQueue_unodes_length (w : EnqWorld) (q u : Nat) :
    (appendUpdateToQueue w q u).unodes.length = w.unodes.length := by
  unfold appendUpdateToQueue
  cases h : (getQueue w q).lastUpdate <;>
    simp [h, setQueue, setUNodeNext, List.length_set]

theorem getQueue_appendUpdateToQueue_ne (w : EnqWorld) (q q' u : Nat)
    (h : q' ≠ q) :
    getQueue (appendUpdateToQueue w q u) q' = getQueue w q' := by
  unfold appendUpdateToQueue
  cases hl : (getQueue w q).lastUpdate with
  | none => simp [hl, getQueue_setQueue_ne _ _ _ _ (fun hh => h hh.symm)]
  | some t =>
      simp only [hl]
      rw [getQueue_setQueue_ne _ _ _ _ (fun hh => h hh.symm)]
      rfl

theorem nextOf_appendUpdateToQueue_empty (w : EnqWorld) (q u : Nat)
    (h : (getQueue w q).lastUpdate = none) :
    nextOf (appendUpdateToQueue w q u) = nextOf w := by
  unfold appendUpdateToQueue
  simp [h, nextOf_setQueue]

theorem nextOf_appendUpdateToQueue_ne (w : EnqWorld) (q u t x : Nat)
    (h : (getQueue w q).lastUpdate = some t) (hx : x ≠ t) :
    nextOf (appendUpdateToQueue w q u) x = nextOf w x := by
  unfold appendUpdateToQueue
  simp only [h]
  rw [nextOf_setQueue]
  exact nextOf_setUNodeNext_ne w t x (some u) (fun hh => hx hh.symm)

theorem queueReps_last_none_iff (w : EnqWorld) (q : Nat) (l : List Nat)
    (hrep : QueueReps w q l) :
    ((getQueue w q).lastUpdate = none ↔ l = []) := by
  rcases hrep with ⟨hl, _, hlast⟩ | ⟨i, t, _, hchain, _, hlast⟩
  · subst hl; simp [hlast]
  · rw [hlast]
    constructor
    · intro hh; exact absurd hh (by simp)
    · intro hh; exact absurd hh (hchain.ne_nil _ _ _)

/-- Appending the same fresh node to two distinct queue objects, at least
one of which is empty (the code path taken by enqueueUpdate when one of
the two lists has no tail yet): both queues end up representing their old
list extended by the node. -/
theorem both_append_reps (w : EnqWorld) (qa qb u : Nat) (la lb : List Nat)
    (hne : qa ≠ qb)
    (hqa : qa < w.queues.length) (hqb : qb < w.queues.length)
    (hra : QueueReps w qa la) (hrb : QueueReps w qb lb)
    (hnda : la.Nodup) (hndb : lb.Nodup)
    (hba : ∀ x ∈ la, x < w.unodes.length) (hbb : ∀ x ∈ lb, x < w.unodes.length)
    (hua : u ∉ la) (hub : u ∉ lb) (hun : nextOf w u = none)
    (hempty : la = [] ∨ lb = []) :
    QueueReps (appendUpdateToQueue (appendUpdateToQueue w qa u) qb u) qa (la ++ [u]) ∧
    QueueReps (appendUpdateToQueue (appendUpdateToQueue w qa u) qb u) qb (lb ++ [u]) := by
  have h1 : QueueReps (appendUpdateToQueue w qa u) qa (la ++ [u]) :=
    queueReps_append w qa u la hqa hra hnda hua hba hun
  set w1 := appendUpdateToQueue w qa u with hw1
  have hrb1 : QueueReps w1 qb lb := by
    rcases hempty with he | he
    · refine QueueReps.transport w w1 qb qb lb
        (getQueue_appendUpdateToQueue_ne w qa qb u (fun hh => hne hh.symm)) ?_ hrb
      exact nextOf_appendUpdateToQueue_empty w qa u
        ((queueReps_last_none_iff w qa la hra).mpr he)
    · subst he
      rcases hrb with ⟨_, hf, hlast⟩ | ⟨i, t, _, hchain, hgl, _⟩
      · exact Or.inl ⟨rfl,
          by rw [getQueue_appendUpdateToQueue_ne w qa qb u (fun hh => hne hh.symm)]; exact hf,
          by rw [getQueue_appendUpdateToQueue_ne w qa qb u (fun hh => hne hh.symm)]; exact hlast⟩
      · exact absurd rfl (hchain.ne_nil _ _ _)
  have hq1b : qb < w1.queues.length := by
    rw [hw1, appendUpdateToQueue_queues_length]; exact hqb
  have hbb1 : ∀ x ∈ lb, x < w1.unodes.length := by
    intro x hx
    rw [hw1, appendUpdateToQueue_unodes_length]
    exact hbb x hx
  have hun1 : nextOf w1 u = none := by
    rcases hra with ⟨hl, _, hlast⟩ | ⟨i, t, _, hchain, hgl, hlast⟩
    · rw [hw1, nextOf_appendUpdateToQueue_empty w qa u hlast]
      exact hun
    · have htm : t ∈ la := List.mem_of_mem_getLast? hgl
      rw [hw1, nextOf_appendUpdateToQueue_ne w qa u t u hlast
        (fun hh => hua (hh ▸ htm))]
      exact hun
  refine ⟨?_, queueReps_append w1 qb u lb hq1b hrb1 hndb hub hbb1 hun1⟩
  by_cases hlb : lb = []
  · exact QueueReps.transport w1 (appendUpdateToQueue w1 qb u) qa qa (la ++ [u])
      (getQueue_appendUpdateToQueue_ne w1 qb qa u hne)
      (nextOf_appendUpdateToQueue_empty w1 qb u
        ((queueReps_last_none_iff w1 qb lb hrb1).mpr hlb)) h1
  · have hla : la = [] := by
      rcases hempty with he | he
      · exact he
      · exact absurd he hlb
    subst hla
    rcases hrb1 with ⟨habs, _, _⟩ | ⟨i2, t2, hf2, hch2, hgl2, hlast2⟩
    · exact absurd habs hlb
    · have ht2m : t2 ∈ lb := List.mem_of_mem_getLast? hgl2
      have hut2 : u ≠ t2 := fun hh => hub (hh ▸ ht2m)
      rcases h1 with ⟨habs, _, _⟩ | ⟨i, t, hf, hch, hgl, hlast⟩
      · cases habs
      · refine Or.inr ⟨i, t, ?_, ?_, hgl, ?_⟩
        · rw [getQueue_appendUpdateToQueue_ne w1 qb qa u hne]
          exact hf
        · refine IsChain.congr (nextOf w1) _ i ([] ++ [u]) hch ?_
          intro x hx
          simp only [List.nil_append, List.mem_singleton] at hx
          subst hx
          exact nextOf_appendUpdateToQueue_ne w1 qb x t2 x hlast2 hut2
        · rw [getQueue_appendUpdateToQueue_ne w1 qb qa u hne]
          exact hlast

/-- The shared-tail code path of enqueueUpdate: both queues are non-empty
and end at the same tail node; the physical append happens once on the
first queue and the second queue only advances its lastUpdate pointer.
Both queues end up representing their old list extended by the node. -/
theorem shared_tail_append_reps (w : EnqWorld) (qa qb u : Nat)
    (la lb : List Nat) (t : Nat) (hne : qa ≠ qb)
    (hqa : qa < w.queues.length) (hqb : qb < w.queues.length)
    (hra : QueueReps w qa la) (hrb : QueueReps w qb lb)
    (hnda : la.Nodup) (hndb : lb.Nodup)
    (hba : ∀ x ∈ la, x < w.unodes.length) (hbb : ∀ x ∈ lb, x < w.unodes.length)
    (hua : u ∉ la) (hub : u ∉ lb) (hun : nextOf w u = none)
    (hta : la.getLast? = some t) (htb : lb.getLast? = some t) :
    QueueReps
      (setQueue (appendUpdateToQueue w qa u) qb
        { getQueue (appendUpdateToQueue w qa u) qb with lastUpdate := some u })
      qa (la ++ [u]) ∧
    QueueReps
      (setQueue (appendUpdateToQueue w qa u) qb
        { getQueue (appendUpdateToQueue w qa u) qb with lastUpdate := some u })
      qb (lb ++ [u]) := by
  have h1 : QueueReps (appendUpdateToQueue w qa u) qa (la ++ [u]) :=
    queueReps_append w qa u la hqa hra hnda hua hba hun
  set w1 := appendUpdateToQueue w qa u with hw1
  have hq1b : qb < w1.queues.length := by
    rw [hw1, appendUpdateToQueue_queues_length]; exact hqb
  constructor
  · exact QueueReps.transport w1 _ qa qa (la ++ [u])
      (getQueue_setQueue_ne w1 qb qa _ (fun hh => hne hh.symm)) (nextOf_setQueue w1 qb _) h1
  · rcases hrb with ⟨habs, _, _⟩ | ⟨i2, t2, hf2, hch2, hgl2, hlast2⟩
    · subst habs; cases htb
    · have ht2 : t2 = t := by
        rw [hgl2] at htb
        exact Option.some.inj htb
      subst ht2
      have ht2m : t2 ∈ lb := List.mem_of_mem_getLast? hgl2
      have htla : t2 ∈ la := List.mem_of_mem_getLast? hta
      have hut : u ≠ t2 := fun hh => hub (hh ▸ ht2m)
      rcases hra with ⟨habs, _, _⟩ | ⟨i1, t1, hf1, hch1, hgl1, hlast1⟩
      · subst habs; cases hta
      · have ht1 : t1 = t2 := by
          rw [hgl1] at hta
          exact Option.some.inj hta
        subst ht1
        refine Or.inr ⟨i2, u, ?_, ?_, by simp, ?_⟩
        · rw [getQueue_setQueue_self w1 qb _ hq1b]
          show (getQueue w1 qb).firstUpdate = some i2
          rw [hw1, getQueue_appendUpdateToQueue_ne w qa qb u (fun hh => hne hh.symm)]
          exact hf2
        · rw [nextOf_setQueue]
          refine IsChain.append (nextOf w) (nextOf w1) t1 u i2 lb hch2 hgl2 hndb hub
            ?_ ?_ ?_
          · intro x _ hxt
            rw [hw1]
            exact nextOf_appendUpdateToQueue_ne w qa u t1 x hlast1 hxt
          · rw [hw1]
            unfold appendUpdateToQueue
            simp only [hlast1]
            rw [nextOf_setQueue]
            exact nextOf_setUNodeNext_self w t1 (some u) (hba t1 htla)
          · rw [hw1]
            rw [nextOf_appendUpdateToQueue_ne w qa u t1 u hlast1 hut]
            exact hun
        · rw [getQueue_setQueue_self w1 qb _ hq1b]

/-- Representation transport along equal list pointers: a queue object
whose firstUpdate and lastUpdate pointers agree with those of a
represented queue, in a world with the same next pointers, represents the
same list (this is what cloning achieves). -/
theorem queueReps_samePointers (w w' : EnqWorld) (q q' : Nat) (l : List Nat)
    (hf : (getQueue w' q').firstUpdate = (getQueue w q).firstUpdate)
    (hl : (getQueue w' q').lastUpdate = (getQueue w q).lastUpdate)
    (hn : nextOf w' = nextOf w)
    (h : QueueReps w q l) : QueueReps w' q' l := by
  rcases h with ⟨h0, h1, h2⟩ | ⟨i, t, h1, h2, h3, h4⟩
  · exact Or.inl ⟨h0, by rw [hf, h1], by rw [hl, h2]⟩
  · exact Or.inr ⟨i, t, by rw [hf, h1], by rw [hn]; exact h2, h3, by rw [hl, h4]⟩

theorem queueReps_createNew (w : EnqWorld) (b : JVal) :
    QueueReps { w with queues := w.queues ++ [⟨b, none, none, none, none⟩] }
      w.queues.length [] :=
  Or.inl ⟨rfl, by rw [getQueue_appendQueues_new], by rw [getQueue_appendQueues_new]⟩

/-- C2: enqueueUpdate appends the update exactly once, as the new last
element, to the normal list of the fiber queue and of the alternate queue
(lazily creating or cloning missing queues); when both queues are
non-empty they share their tail, so only one queue receives the physical
append and the other merely advances its lastUpdate pointer. -/
theorem claim_C2_enqueue_append_once
    (w : EnqWorld) (fiberQueue : Option Nat) (fiberMemo : JVal)
    (alt : Option (Option Nat × JVal)) (u : Nat)
    (l1 l2 : List Nat)
    (h1 : match fiberQueue with
          | some q => q < w.queues.length ∧ QueueReps w q l1
          | none => l1 = [])
    (h2 : match alt with
          | none => l2 = []
          | some (some q, _) => q < w.queues.length ∧ QueueReps w q l2
          | some (none, _) => l2 = [])
    (hnd1 : l1.Nodup) (hnd2 : l2.Nodup)
    (hb1 : ∀ x ∈ l1, x < w.unodes.length) (hb2 : ∀ x ∈ l2, x < w.unodes.length)
    (hu1 : u ∉ l1) (hu2 : u ∉ l2) (hun : nextOf w u = none)
    (hsame : ∀ qa m, fiberQueue = some qa → alt = some (some qa, m) → l1 = l2)
    (hshare : ∀ qa qb m, fiberQueue = some qa → alt = some (some qb, m) →
        qa ≠ qb → l1 ≠ [] → l2 ≠ [] → l1.getLast? = l2.getLast?) :
    QueueReps (enqueueUpdate w fiberQueue fiberMemo alt u).1
      (enqueueUpdate w fiberQueue fiberMemo alt u).2.1
      ((match fiberQueue, alt with
        | none, some (some _, _) => l2
        | _, _ => l1) ++ [u]) ∧
    (∀ q2, (enqueueUpdate w fiberQueue fiberMemo alt u).2.2 = some q2 →
      QueueReps (enqueueUpdate w fiberQueue fiberMemo alt u).1 q2
        ((match fiberQueue, alt with
          | _, some (some _, _) => l2
          | some _, some (none, _) => l1
          | _, _ => l2) ++ [u])) := by
  cases alt with
  | none =>
      cases fiberQueue with
      | some qa =>
          obtain ⟨hqa, hra⟩ := h1
          simp only [enqueueUpdate]
          refine ⟨queueReps_append w qa u l1 hqa hra hnd1 hu1 hb1 hun, ?_⟩
          intro q2 hq2
          cases hq2
      | none =>
          subst h1
          simp only [enqueueUpdate, createUpdateQueueW]
          refine ⟨?_, ?_⟩
          · exact queueReps_append _ w.queues.length u []
              (by simp) (queueReps_createNew w fiberMemo) (by simp) (by simp)
              (by simp) hun
          · intro q2 hq2
            cases hq2
  | some altp =>
      obtain ⟨altQueue, altMemo⟩ := altp
      cases altQueue with
      | some qb =>
          obtain ⟨hqb, hrb⟩ := h2
          cases fiberQueue with
          | some qa =>
              obtain ⟨hqa, hra⟩ := h1
              simp only [enqueueUpdate]
              by_cases hqq : qa = qb
              · subst hqq
                rw [if_pos rfl]
                have hl12 : l1 = l2 := hsame qa altMemo rfl rfl
                subst hl12
                refine ⟨queueReps_append w qa u l1 hqa hra hnd1 hu1 hb1 hun, ?_⟩
                intro q2 hq2
                cases hq2
                exact queueReps_append w qa u l1 hqa hra hnd1 hu1 hb1 hun
              · rw [if_neg hqq]
                by_cases hcond : (getQueue w qa).lastUpdate = none ∨
                    (getQueue w qb).lastUpdate = none
                · rw [if_pos hcond]
                  have hempty : l1 = [] ∨ l2 = [] := by
                    rcases hcond with hc | hc
                    · exact Or.inl ((queueReps_last_none_iff w qa l1 hra).mp hc)
                    · exact Or.inr ((queueReps_last_none_iff w qb l2 hrb).mp hc)
                  have hba := both_append_reps w qa qb u l1 l2 hqq hqa hqb hra hrb
                    hnd1 hnd2 hb1 hb2 hu1 hu2 hun hempty
                  refine ⟨hba.1, ?_⟩
                  intro q2 hq2
                  cases hq2
                  exact hba.2
                · rw [if_neg hcond]
                  push_neg at hcond
                  obtain ⟨hca, hcb⟩ := hcond
                  have hl1ne : l1 ≠ [] := by
                    intro hh
                    exact hca ((queueReps_last_none_iff w qa l1 hra).mpr hh)
                  have hl2ne : l2 ≠ [] := by
                    intro hh
                    exact hcb ((queueReps_last_none_iff w qb l2 hrb).mpr hh)
                  have hgl := hshare qa qb altMemo rfl rfl hqq hl1ne hl2ne
                  obtain ⟨t, hglt⟩ : ∃ t, l2.getLast? = some t := by
                    cases hgl2 : l2.getLast? with
                    | none => exact absurd (List.getLast?_eq_none_iff.mp hgl2) hl2ne
                    | some t => exact ⟨t, rfl⟩
                  have hst := shared_tail_append_reps w qa qb u l1 l2 t hqq hqa hqb
                    hra hrb hnd1 hnd2 hb1 hb2 hu1 hu2 hun (hgl.trans hglt) hglt
                  refine ⟨hst.1, ?_⟩
                  intro q2 hq2
                  cases hq2
                  exact hst.2
          | none =>
              subst h1
              simp only [enqueueUpdate, cloneUpdateQueueW]
              have hne : w.queues.length ≠ qb :=
                fun hh => Nat.lt_irrefl qb (hh ▸ hqb)
              rw [if_neg hne]
              set cloneObj : QueueObj :=
                ⟨(getQueue w qb).baseState, (getQueue w qb).firstUpdate,
                  (getQueue w qb).lastUpdate, none, none⟩ with hco
              set wc : EnqWorld := { w with queues := w.queues ++ [cloneObj] } with hwc
              have hgn : getQueue wc w.queues.length = cloneObj :=
                getQueue_appendQueues_new w cloneObj
              have hgb : getQueue wc qb = getQueue w qb :=
                getQueue_appendQueues w cloneObj qb hqb
              have hnx : nextOf wc = nextOf w := nextOf_appendQueues w cloneObj
              have hrn : QueueReps wc w.queues.length l2 :=
                queueReps_samePointers w wc qb w.queues.length l2
                  (by rw [hgn]) (by rw [hgn]) hnx hrb
              have hrb' : QueueReps wc qb l2 :=
                queueReps_samePointers w wc qb qb l2 (by rw [hgb]) (by rw [hgb]) hnx hrb
              have hqn : w.queues.length < wc.queues.length := by
                rw [hwc]; simp
              have hqb' : qb < wc.queues.length := by
                rw [hwc]; simp
                exact Nat.lt_succ_of_lt hqb
              have hb2' : ∀ x ∈ l2, x < wc.unodes.length := hb2
              have hun' : nextOf wc u = none := by rw [hnx]; exact hun
              by_cases hcond : (getQueue wc w.queues.length).lastUpdate = none ∨
                  (getQueue wc qb).lastUpdate = none
              · rw [if_pos hcond]
                have hempty : l2 = [] := by
                  rcases hcond with hc | hc
                  · exact (queueReps_last_none_iff wc w.queues.length l2 hrn).mp hc
                  · exact (queueReps_last_none_iff wc qb l2 hrb').mp hc
                have hba := both_append_reps wc w.queues.length qb u l2 l2 hne hqn hqb'
                  hrn hrb' hnd2 hnd2 hb2' hb2' hu2 hu2 hun' (Or.inl hempty)
                refine ⟨hba.1, ?_⟩
                intro q2 hq2
                cases hq2
                exact hba.2
              · rw [if_neg hcond]
                push_neg at hcond
                have hl2ne' : l2 ≠ [] := by
                  intro hh
                  exact hcond.1 ((queueReps_last_none_iff wc w.queues.length l2 hrn).mpr hh)
                obtain ⟨t, hglt⟩ : ∃ t, l2.getLast? = some t := by
                  cases hgl2 : l2.getLast? with
                  | none => exact absurd (List.getLast?_eq_none_iff.mp hgl2) hl2ne'
                  | some t => exact ⟨t, rfl⟩
                have hst := shared_tail_append_reps wc w.queues.length qb u l2 l2 t
                  hne hqn hqb' hrn hrb' hnd2 hnd2 hb2' hb2' hu2 hu2 hun' hglt hglt
                refine ⟨hst.1, ?_⟩
                intro q2 hq2
                cases hq2
                exact hst.2
      | none =>
          subst h2
          cases fiberQueue with
          | some qa =>
              obtain ⟨hqa, hra⟩ := h1
              simp only [enqueueUpdate, cloneUpdateQueueW]
              have hne : qa ≠ w.queues.length :=
                fun hh => Nat.lt_irrefl w.queues.length (hh ▸ hqa)
              rw [if_neg hne]
              set cloneObj : QueueObj :=
                ⟨(getQueue w qa).baseState, (getQueue w qa).firstUpdate,
                  (getQueue w qa).lastUpdate, none, none⟩ with hco
              set wc : EnqWorld := { w with queues := w.queues ++ [cloneObj] } with hwc
              have hgn : getQueue wc w.queues.length = cloneObj :=
                getQueue_appendQueues_new w cloneObj
              have hga : getQueue wc qa = getQueue w qa :=
                getQueue_appendQueues w cloneObj qa hqa
              have hnx : nextOf wc = nextOf w := nextOf_appendQueues w cloneObj
              have hrn : QueueReps wc w.queues.length l1 :=
                queueReps_samePointers w wc qa w.queues.length l1
                  (by rw [hgn]) (by rw [hgn]) hnx hra
              have hra' : QueueReps wc qa l1 :=
                queueReps_samePointers w wc qa qa l1 (by rw [hga]) (by rw [hga]) hnx hra
              have hqn : w.queues.length < wc.queues.length := by
                rw [hwc]; simp
              have hqa' : qa < wc.queues.length := by
                rw [hwc]; simp
                exact Nat.lt_succ_of_lt hqa
              have hb1' : ∀ x ∈ l1, x < wc.unodes.length := hb1
              have hun' : nextOf wc u = none := by rw [hnx]; exact hun
              by_cases hcond : (getQueue wc qa).lastUpdate = none ∨
                  (getQueue wc w.queues.length).lastUpdate = none
              · rw [if_pos hcond]
                have hempty : l1 = [] := by
                  rcases hcond with hc | hc
                  · exact (queueReps_last_none_iff wc qa l1 hra').mp hc
                  · exact (queueReps_last_none_iff wc w.queues.length l1 hrn).mp hc
                have hba := both_append_reps wc qa w.queues.length u l1 l1 hne hqa' hqn
                  hra' hrn hnd1 hnd1 hb1' hb1' hu1 hu1 hun' (Or.inl hempty)
                refine ⟨hba.1, ?_⟩
                intro q2 hq2
                cases hq2
                exact hba.2
              · rw [if_neg hcond]
                push_neg at hcond
                have hl1ne : l1 ≠ [] := by
                  intro hh
                  exact hcond.1 ((queueReps_last_none_iff wc qa l1 hra').mpr hh)
                obtain ⟨t, hglt⟩ : ∃ t, l1.getLast? = some t := by
                  cases hgl1 : l1.getLast? with
                  | none => exact absurd (List.getLast?_eq_none_iff.mp hgl1) hl1ne
                  | some t => exact ⟨t, rfl⟩
                have hst := shared_tail_append_reps wc qa w.queues.length u l1 l1 t
                  hne hqa' hqn hra' hrn hnd1 hnd1 hb1' hb1' hu1 hu1 hun' hglt hglt
                refine ⟨hst.1, ?_⟩
                intro q2 hq2
                cases hq2
                exact hst.2
          | none =>
              subst h1
              simp only [enqueueUpdate, createUpdateQueueW]
              set o1 : QueueObj := ⟨fiberMemo, none, none, none, none⟩ with ho1
              set w1 : EnqWorld := { w with queues := w.queues ++ [o1] } with hw1
              set o2 : QueueObj := ⟨altMemo, none, none, none, none⟩ with ho2
              set w2 : EnqWorld := { w1 with queues := w1.queues ++ [o2] } with hw2
              have hne : w.queues.length ≠ w1.queues.length := by
                rw [hw1]; simp
              rw [if_neg hne]
              have hr1 : QueueReps w2 w.queues.length [] := by
                refine Or.inl ⟨rfl, ?_, ?_⟩ <;>
                  rw [getQueue_appendQueues w1 o2 w.queues.length (by rw [hw1]; simp),
                    hw1, getQueue_appendQueues_new w o1]
              have hr2 : QueueReps w2 w1.queues.length [] := queueReps_createNew w1 o2.baseState
              have hq1 : w.queues.length < w2.queues.length := by
                rw [hw2, hw1]; simp
              have hq2v : w1.queues.length < w2.queues.length := by
                rw [hw2]; simp
              have hun' : nextOf w2 u = none := hun
              have hlast1 : (getQueue w2 w.queues.length).lastUpdate = none := by
                rw [getQueue_appendQueues w1 o2 w.queues.length (by rw [hw1]; simp),
                  hw1, getQueue_appendQueues_new w o1]
              rw [if_pos (Or.inl hlast1)]
              have hba := both_append_reps w2 w.queues.length w1.queues.length u [] []
                hne hq1 hq2v hr1 hr2 (by simp) (by simp) (by simp) (by simp)
                (by simp) (by simp) hun' (Or.inl rfl)
              refine ⟨hba.1, ?_⟩
              intro q2 hq2
              cases hq2
              exact hba.2

/-- A concrete two-queue world for the C2 witness: node 0 is the shared
single-element update list of a fiber queue (id 0) and its alternate
queue (id 1); node 1 is the fresh update to enqueue. -/
def exampleWorldC2 : EnqWorld :=
  { unodes := [⟨none⟩, ⟨none⟩]
    queues := [⟨JVal.jnull, some 0, some 0, none, none⟩,
               ⟨JVal.jnull, some 0, some 0, none, none⟩] }

/-- Witness for C2: enqueueing node 1 against the fiber of
exampleWorldC2 (whose queue and alternate queue both hold the list [0]
with a shared tail) leaves both queues representing [0, 1]. -/
theorem claim_C2_witness :
    QueueReps (enqueueUpdate exampleWorldC2 (some 0) JVal.jnull
        (some (some 1, JVal.jnull)) 1).1
      (enqueueUpdate exampleWorldC2 (some 0) JVal.jnull
        (some (some 1, JVal.jnull)) 1).2.1 ([0] ++ [1]) ∧
    QueueReps (enqueueUpdate exampleWorldC2 (some 0) JVal.jnull
        (some (some 1, JVal.jnull)) 1).1 1 ([0] ++ [1]) := by
  have hrep0 : QueueReps exampleWorldC2 0 [0] :=
    Or.inr ⟨0, 0, rfl, IsChain.last 0 rfl, rfl, rfl⟩
  have hrep1 : QueueReps exampleWorldC2 1 [0] :=
    Or.inr ⟨0, 0, rfl, IsChain.last 0 rfl, rfl, rfl⟩
  have h := claim_C2_enqueue_append_once exampleWorldC2 (some 0) JVal.jnull
    (some (some 1, JVal.jnull)) 1 [0] [0]
    ⟨by decide, hrep0⟩ ⟨by decide, hrep1⟩
    (by decide) (by decide) (by decide) (by decide) (by decide) (by decide)
    rfl (fun _ _ _ _ => rfl) (fun _ _ _ _ _ _ _ _ => rfl)
  exact ⟨h.1, h.2 1 rfl⟩

/-- Work tag constants from shared/ReactWorkTags.js. -/
def FunctionComponent : Nat := 0
/-- Work tag ClassComponent = 1 (shared/ReactWorkTags.js). -/
def ClassComponent : Nat := 1
/-- Work tag IndeterminateComponent = 2 (shared/ReactWorkTags.js). -/
def IndeterminateComponent : Nat := 2
/-- Work tag HostRoot = 3 (shared/ReactWorkTags.js). -/
def HostRoot : Nat := 3
/-- Work tag HostPortal = 4 (shared/ReactWorkTags.js). -/
def HostPortal : Nat := 4
/-- Work tag HostComponent = 5 (shared/ReactWorkTags.js). -/
def HostComponent : Nat := 5
/-- Work tag HostText = 6 (shared/ReactWorkTags.js). -/
def HostText : Nat := 6
/-- Work tag Fragment = 7 (shared/ReactWorkTags.js). -/
def Fragment : Nat := 7
/-- Work tag Mode = 8 (shared/ReactWorkTags.js). -/
def Mode : Nat := 8
/-- Work tag ContextConsumer = 9 (shared/ReactWorkTags.js). -/
def ContextConsumer : Nat := 9
/-- Work tag ContextProvider = 10 (shared/ReactWorkTags.js). -/
def ContextProvider : Nat := 10
/-- Work tag ForwardRef = 11 (shared/ReactWorkTags.js). -/
def ForwardRef : Nat := 11
/-- Work tag Profiler = 12 (shared/ReactWorkTags.js). -/
def Profiler : Nat := 12
/-- Work tag SuspenseComponent = 13 (shared/ReactWorkTags.js). -/
def SuspenseComponent : Nat := 13
/-- Work tag MemoComponent = 14 (shared/ReactWorkTags.js). -/
def MemoComponent : Nat := 14
/-- Work tag LazyComponent = 16 (shared/ReactWorkTags.js). -/
def LazyComponent : Nat := 16

/-- Mode bit NoContext = 0b000 (ReactTypeOfMode.js). -/
def NoContext : Nat := 0
/-- Mode bit ConcurrentMode = 0b001 (ReactTypeOfMode.js). -/
def ConcurrentMode : Nat := 1
/-- Mode bit StrictMode = 0b010 (ReactTypeOfMode.js). -/
def StrictMode : Nat := 2
/-- Mode bit ProfileMode = 0b100 (ReactTypeOfMode.js). -/
def ProfileMode : Nat := 4

/-- The well-known runtime symbols of shared/ReactSymbols.js that
createFiberFromTypeAndProps compares element types against, plus a
constructor for any other symbol value. -/
inductive RSym where
  | fragmentSym
  | concurrentModeSym
  | strictModeSym
  | profilerSym
  | suspenseSym
  | providerSym
  | contextSym
  | forwardRefSym
  | memoSym
  | lazySym
  | otherSym (n : Nat)
deriving DecidableEq, Repr

/-- JavaScript element-type values as classified by typeof and identity
in createFiberFromTypeAndProps: functions (carrying the result of the
shouldConstruct test, i.e. whether prototype.isReactComponent is set),
strings, symbols, non-null objects (carrying their optional well-known
dollar-dollar-typeof tag), null, undefined, numbers and booleans. -/
inductive ElemType where
  | efun (isClass : Bool)
  | estr (s : String)
  | esym (s : RSym)
  | eobj (typeTag : Option RSym)
  | enull
  | eundefined
  | enum (n : Int)
  | ebool (b : Bool)
deriving DecidableEq, Repr

/-- The fields of a Fiber (ReactFiber.js) that the modelled operations
touch.  Pointer fields hold store indices; opaque payload fields
(stateNode, props, state, queue, context dependencies, ref) hold values
of the parameter type V, with none standing for null.  The JS field
`return` is renamed ret.  DEV-only and profiler-timer fields are omitted
(the enableProfilerTimer feature flag is modelled as off, its production
default). -/
structure Fiber (V : Type) where
  tag : Nat
  key : Option String
  elementType : Option ElemType
  type : Option ElemType
  stateNode : Option V
  ret : Option Nat
  child : Option Nat
  sibling : Option Nat
  index : Nat
  ref : Option V
  pendingProps : Option V
  memoizedProps : Option V
  updateQueue : Option V
  memoizedState : Option V
  contextDependencies : Option V
  mode : Nat
  effectTag : Nat
  nextEffect : Option Nat
  firstEffect : Option Nat
  lastEffect : Option Nat
  expirationTime : Nat
  childExpirationTime : Nat
  alternate : Option Nat

/-- createFiber / the FiberNode constructor (ReactFiber.js): every work
field null or zero, side-effect flags cleared. -/
def createFiber {V : Type} (tag : Nat) (pendingProps : Option V)
    (key : Option String) (mode : Nat) : Fiber V :=
  { tag := tag
    key := key
    elementType := none
    type := none
    stateNode := none
    ret := none
    child := none
    sibling := none
    index := 0
    ref := none
    pendingProps := pendingProps
    memoizedProps := none
    updateQueue := none
    memoizedState := none
    contextDependencies := none
    mode := mode
    effectTag := NoEffect
    nextEffect := none
    firstEffect := none
    lastEffect := none
    expirationTime := NoWork
    childExpirationTime := NoWork
    alternate := none }

/-- Read a fiber out of the store (a default blank fiber for invalid
indices; the theorems carry validity hypotheses). -/
def getFiber {V : Type} (s : List (Fiber V)) (i : Nat) : Fiber V :=
  s.getD i (createFiber 0 none none 0)

/-- The unconditional tail of createWorkInProgress: the fields copied
from current into the work in progress on every call. -/
def copyCurrentFields {V : Type} (wip c : Fiber V) : Fiber V :=
  { wip with
      childExpirationTime := c.childExpirationTime
      expirationTime := c.expirationTime
      child := c.child
      memoizedProps := c.memoizedProps
      memoizedState := c.memoizedState
      updateQueue := c.updateQueue
      contextDependencies := c.contextDependencies
      sibling := c.sibling
      index := c.index
      ref := c.ref }

/-- createWorkInProgress(current, pendingProps, expirationTime) from
ReactFiber.js over the fiber store: either allocate a fresh alternate
(copying identity fields and linking the two alternates), or reuse the
existing one, overwriting its pendingProps and clearing its effect tag
and effect-list pointers; in both cases the work fields of current are
then copied over.  Returns the new store and the index of the work in
progress. -/
def createWorkInProgress {V : Type} (s : List (Fiber V)) (cur : Nat)
    (pendingProps : Option V) (expirationTime : Nat) :
    List (Fiber V) × Nat :=
  let c := getFiber s cur
  match c.alternate with
  | none =>
      let wipId := s.length
      let wip := createFiber c.tag pendingProps c.key c.mode
      let wip := { wip with
          elementType := c.elementType
          type := c.type
          stateNode := c.stateNode
          alternate := some cur }
      let wip := copyCurrentFields wip c
      let s := s ++ [wip]
      let s := s.set cur { c with alternate := some wipId }
      (s, wipId)
  | some wipId =>
      let a := getFiber s wipId
      let a := { a with
          pendingProps := pendingProps
          effectTag := NoEffect
          nextEffect := none
          firstEffect := none
          lastEffect := none }
      let a := copyCurrentFields a c
      (s.set wipId a, wipId)

theorem getD_set_self {α : Type} (l : List α) (i : Nat) (v d : α)
    (h : i < l.length) : (l.set i v).getD i d = v := by
  simp [List.getD, List.getElem?_set_self, h]

theorem getD_set_ne {α : Type} (l : List α) (i j : Nat) (v d : α)
    (h : i ≠ j) : (l.set i v).getD j d = l.getD j d := by
  simp [List.getD, List.getElem?_set_ne h]

theorem getD_append_lt {α : Type} (l : List α) (x d : α) (i : Nat)
    (h : i < l.length) : (l ++ [x]).getD i d = l.getD i d := by
  simp [List.getD, List.getElem?_append_left h]

theorem getD_append_len {α : Type} (l : List α) (x d : α) :
    (l ++ [x]).getD l.length d = x := by
  simp [List.getD]

theorem getFiber_set_self {V : Type} (s : List (Fiber V)) (i : Nat)
    (v : Fiber V) (h : i < s.length) : getFiber (s.set i v) i = v :=
  getD_set_self s i v _ h

theorem getFiber_set_ne {V : Type} (s : List (Fiber V)) (i j : Nat)
    (v : Fiber V) (h : i ≠ j) : getFiber (s.set i v) j = getFiber s j :=
  getD_set_ne s i j v _ h

theorem getFiber_append_lt {V : Type} (s : List (Fiber V)) (x : Fiber V)
    (i : Nat) (h : i < s.length) : getFiber (s ++ [x]) i = getFiber s i :=
  getD_append_lt s x _ i h

theorem getFiber_append_len {V : Type} (s : List (Fiber V)) (x : Fiber V) :
    getFiber (s ++ [x]) s.length = x :=
  getD_append_len s x _

theorem copyCurrentFields_alternate {V : Type} (wip c : Fiber V) :
    (copyCurrentFields wip c).alternate = wip.alternate := rfl

theorem copyCurrentFields_tag {V : Type} (wip c : Fiber V) :
    (copyCurrentFields wip c).tag = wip.tag := rfl

theorem copyCurrentFields_key {V : Type} (wip c : Fiber V) :
    (copyCurrentFields wip c).key = wip.key := rfl

theorem copyCurrentFields_mode {V : Type} (wip c : Fiber V) :
    (copyCurrentFields wip c).mode = wip.mode := rfl

theorem copyCurrentFields_effectTag {V : Type} (wip c : Fiber V) :
    (copyCurrentFields wip c).effectTag = wip.effectTag := rfl

theorem copyCurrentFields_pendingProps {V : Type} (wip c : Fiber V) :
    (copyCurrentFields wip c).pendingProps = wip.pendingProps := rfl

/-- C5: after createWorkInProgress the alternate relation is symmetric
and kind-preserving (same tag, key and mode), and a repeated call reuses
the same node. -/
theorem claim_C5_alternate_symmetric_kind_preserving {V : Type}
    (s : List (Fiber V)) (cur : Nat) (p p2 : Option V) (e e2 : Nat)
    (hcur : cur < s.length)
    (hwf : ∀ a, (getFiber s cur).alternate = some a →
      a < s.length ∧ a ≠ cur ∧ (getFiber s a).alternate = some cur ∧
      (getFiber s a).tag = (getFiber s cur).tag ∧
      (getFiber s a).key = (getFiber s cur).key ∧
      (getFiber s a).mode = (getFiber s cur).mode) :
    (getFiber (createWorkInProgress s cur p e).1
        (createWorkInProgress s cur p e).2).alternate = some cur ∧
    (getFiber (createWorkInProgress s cur p e).1 cur).alternate =
      some (createWorkInProgress s cur p e).2 ∧
    (getFiber (createWorkInProgress s cur p e).1
        (createWorkInProgress s cur p e).2).tag = (getFiber s cur).tag ∧
    (getFiber (createWorkInProgress s cur p e).1
        (createWorkInProgress s cur p e).2).key = (getFiber s cur).key ∧
    (getFiber (createWorkInProgress s cur p e).1
        (createWorkInProgress s cur p e).2).mode = (getFiber s cur).mode ∧
    (createWorkInProgress (createWorkInProgress s cur p e).1 cur p2 e2).2 =
      (createWorkInProgress s cur p e).2 := by
  cases halt : (getFiber s cur).alternate with
  | none =>
      have hne : cur ≠ s.length := Nat.ne_of_lt hcur
      have hcur' : cur < (s ++ [copyCurrentFields
          ({ createFiber (getFiber s cur).tag p (getFiber s cur).key
              (getFiber s cur).mode with
            elementType := (getFiber s cur).elementType
            type := (getFiber s cur).type
            stateNode := (getFiber s cur).stateNode
            alternate := some cur }) (getFiber s cur)]).length := by
        simp only [List.length_append, List.length_singleton]
        exact Nat.lt_succ_of_lt hcur
      simp only [createWorkInProgress, halt]
      have hget2 : ∀ x : Fiber V,
          getFiber ((s ++ [x]).set cur { getFiber s cur with alternate := some s.length })
            s.length = x := by
        intro x
        rw [getFiber_set_ne _ _ _ _ hne]
        exact getFiber_append_len s x
      have hgetc : ∀ x : Fiber V,
          getFiber ((s ++ [x]).set cur { getFiber s cur with alternate := some s.length })
            cur = { getFiber s cur with alternate := some s.length } := by
        intro x
        rw [getFiber_set_self]
        simp only [List.length_append, List.length_singleton]
        exact Nat.lt_succ_of_lt hcur
      refine ⟨?_, ?_, ?_, ?_, ?_, ?_⟩
      · rw [hget2]; rfl
      · rw [hgetc]
      · rw [hget2]; rfl
      · rw [hget2]; rfl
      · rw [hget2]; rfl
      · simp only [createWorkInProgress, hgetc]
  | some a =>
      obtain ⟨ha, hac, hback, htag, hkey, hmode⟩ := hwf a halt
      simp only [createWorkInProgress, halt]
      have hgeta : ∀ x : Fiber V, getFiber (s.set a x) a = x :=
        fun x => getFiber_set_self s a x ha
      have hgetc : ∀ x : Fiber V, getFiber (s.set a x) cur = getFiber s cur :=
        fun x => getFiber_set_ne s a cur x hac
      refine ⟨?_, ?_, ?_, ?_, ?_, ?_⟩
      · rw [hgeta]
        show (getFiber s a).alternate = some cur
        exact hback
      · rw [hgetc]
        exact halt
      · rw [hgeta]
        show (getFiber s a).tag = (getFiber s cur).tag
        exact htag
      · rw [hgeta]
        show (getFiber s a).key = (getFiber s cur).key
        exact hkey
      · rw [hgeta]
        show (getFiber s a).mode = (getFiber s cur).mode
        exact hmode
      · have : (getFiber (s.set a (copyCurrentFields
            ({ getFiber s a with
                pendingProps := p
                effectTag := NoEffect
                nextEffect := none
                firstEffect := none
                lastEffect := none }) (getFiber s cur))) cur).alternate = some a := by
          rw [hgetc]
          exact halt
        simp only [createWorkInProgress, this]

/-- C6: when current already has an alternate, createWorkInProgress
returns that alternate with its effect tag cleared to NoEffect, its
three effect-list pointers nulled, and its pendingProps overwritten,
regardless of how those fields were mutated by an abandoned pass. -/
theorem claim_C6_reused_alternate_clean {V : Type}
    (s : List (Fiber V)) (cur a : Nat) (p : Option V) (e : Nat)
    (halt : (getFiber s cur).alternate = some a) (ha : a < s.length) :
    (createWorkInProgress s cur p e).2 = a ∧
    (getFiber (createWorkInProgress s cur p e).1 a).effectTag = NoEffect ∧
    (getFiber (createWorkInProgress s cur p e).1 a).nextEffect = none ∧
    (getFiber (createWorkInProgress s cur p e).1 a).firstEffect = none ∧
    (getFiber (createWorkInProgress s cur p e).1 a).lastEffect = none ∧
    (getFiber (createWorkInProgress s cur p e).1 a).pendingProps = p := by
  simp only [createWorkInProgress, halt]
  have hgeta : ∀ x : Fiber V, getFiber (s.set a x) a = x :=
    fun x => getFiber_set_self s a x ha
  refine ⟨?_, ?_, ?_, ?_, ?_, ?_⟩
  · trivial
  · rw [hgeta]; rfl
  · rw [hgeta]; rfl
  · rw [hgeta]; rfl
  · rw [hgeta]; rfl
  · rw [hgeta]; rfl

/-- C7: createWorkInProgress mutates no field of current except setting
its alternate link when it was null, leaves every other fiber untouched,
allocates only when no alternate exists, and a repeated call returns the
same node with no new allocation. -/
theorem claim_C7_idempotent_no_realloc {V : Type}
    (s : List (Fiber V)) (cur : Nat) (p p2 : Option V) (e e2 : Nat)
    (hcur : cur < s.length)
    (hwf : ∀ a, (getFiber s cur).alternate = some a → a < s.length ∧ a ≠ cur) :
    ((getFiber s cur).alternate = none →
       (createWorkInProgress s cur p e).1.length = s.length + 1 ∧
       getFiber (createWorkInProgress s cur p e).1 cur =
         { getFiber s cur with alternate := some (createWorkInProgress s cur p e).2 }) ∧
    (∀ a, (getFiber s cur).alternate = some a →
       (createWorkInProgress s cur p e).1.length = s.length ∧
       getFiber (createWorkInProgress s cur p e).1 cur = getFiber s cur) ∧
    (∀ j, j < s.length → j ≠ cur → j ≠ (createWorkInProgress s cur p e).2 →
       getFiber (createWorkInProgress s cur p e).1 j = getFiber s j) ∧
    (createWorkInProgress (createWorkInProgress s cur p e).1 cur p2 e2).2 =
      (createWorkInProgress s cur p e).2 ∧
    (createWorkInProgress (createWorkInProgress s cur p e).1 cur p2 e2).1.length =
      (createWorkInProgress s cur p e).1.length := by
  cases halt : (getFiber s cur).alternate with
  | none =>
      have hne : cur ≠ s.length := Nat.ne_of_lt hcur
      simp only [createWorkInProgress, halt]
      have hgetc : ∀ x : Fiber V,
          getFiber ((s ++ [x]).set cur { getFiber s cur with alternate := some s.length })
            cur = { getFiber s cur with alternate := some s.length } := by
        intro x
        rw [getFiber_set_self]
        simp only [List.length_append, List.length_singleton]
        exact Nat.lt_succ_of_lt hcur
      refine ⟨?_, ?_, ?_, ?_, ?_⟩
      · intro _
        constructor
        · simp [List.length_set]
        · rw [hgetc]
      · intro a ha
        simp [halt] at ha
      · intro j hj hjc hjn
        rw [getFiber_set_ne _ _ _ _ (fun hh => hjc hh.symm)]
        exact getFiber_append_lt s _ j hj
      · simp only [createWorkInProgress, hgetc]
      · simp only [createWorkInProgress, hgetc]
        simp [List.length_set]
  | some a =>
      obtain ⟨ha, hac⟩ := hwf a halt
      simp only [createWorkInProgress, halt]
      have hgetc : ∀ x : Fiber V, getFiber (s.set a x) cur = getFiber s cur :=
        fun x => getFiber_set_ne s a cur x hac
      refine ⟨?_, ?_, ?_, ?_, ?_⟩
      · intro hh
        exact absurd hh (by simp)
      · intro a' ha'
        constructor
        · simp [List.length_set]
        · rw [hgetc]
      · intro j hj hjc hjn
        exact getFiber_set_ne s a j _ (fun hh => hjn hh.symm)
      · have hc2 : (getFiber (s.set a (copyCurrentFields
            ({ getFiber s a with
                pendingProps := p
                effectTag := NoEffect
                nextEffect := none
                firstEffect := none
                lastEffect := none }) (getFiber s cur))) cur).alternate = some a := by
          rw [hgetc]
          exact halt
        simp only [createWorkInProgress, hc2]
      · have hc2 : (getFiber (s.set a (copyCurrentFields
            ({ getFiber s a with
                pendingProps := p
                effectTag := NoEffect
                nextEffect := none
                firstEffect := none
                lastEffect := none }) (getFiber s cur))) cur).alternate = some a := by
          rw [hgetc]
          exact halt
        simp only [createWorkInProgress, hc2]
        simp [List.length_set]

/-- A two-fiber store for the double-buffer witnesses: fiber 0 is a
committed host root whose alternate, fiber 1, carries stale effect
state from an abandoned pass. -/
def exampleStoreC5 : List (Fiber Unit) :=
  [{ createFiber HostRoot none none NoContext with alternate := some 1 },
   { createFiber HostRoot none none NoContext with
      alternate := some 0
      effectTag := 5
      nextEffect := some 0
      firstEffect := some 0
      lastEffect := some 0 }]

/-- Witness for C5 at the concrete two-fiber store. -/
theorem claim_C5_witness :
    (getFiber (createWorkInProgress exampleStoreC5 0 none 7).1
        (createWorkInProgress exampleStoreC5 0 none 7).2).alternate = some 0 ∧
    (getFiber (createWorkInProgress exampleStoreC5 0 none 7).1 0).alternate =
      some (createWorkInProgress exampleStoreC5 0 none 7).2 := by
  have h := claim_C5_alternate_symmetric_kind_preserving exampleStoreC5 0 none none 7 7
    (by decide)
    (by
      intro a hh
      have hae : a = 1 := by
        have : (getFiber exampleStoreC5 0).alternate = some 1 := rfl
        rw [this] at hh
        exact (Option.some.inj hh).symm
      subst hae
      refine ⟨by decide, by decide, rfl, rfl, rfl, rfl⟩)
  exact ⟨h.1, h.2.1⟩

/-- Witness for C6 at the concrete two-fiber store: the stale effect
fields of the alternate are wiped. -/
theorem claim_C6_witness :
    (createWorkInProgress exampleStoreC5 0 none 7).2 = 1 ∧
    (getFiber (createWorkInProgress exampleStoreC5 0 none 7).1 1).effectTag = NoEffect ∧
    (getFiber (createWorkInProgress exampleStoreC5 0 none 7).1 1).nextEffect = none ∧
    (getFiber (createWorkInProgress exampleStoreC5 0 none 7).1 1).firstEffect = none ∧
    (getFiber (createWorkInProgress exampleStoreC5 0 none 7).1 1).lastEffect = none :=
  have h := claim_C6_reused_alternate_clean exampleStoreC5 0 1 none 7 rfl (by decide)
  ⟨h.1, h.2.1, h.2.2.1, h.2.2.2.1, h.2.2.2.2.1⟩

/-- Witness for C7 at the concrete two-fiber store: the repeated call
returns the same node and allocates nothing. -/
theorem claim_C7_witness :
    (getFiber (createWorkInProgress exampleStoreC5 0 none 7).1 0 =
      getFiber exampleStoreC5 0) ∧
    (createWorkInProgress (createWorkInProgress exampleStoreC5 0 none 7).1 0 none 9).2 =
      (createWorkInProgress exampleStoreC5 0 none 7).2 ∧
    (createWorkInProgress (createWorkInProgress exampleStoreC5 0 none 7).1 0 none 9).1.length =
      (createWorkInProgress exampleStoreC5 0 none 7).1.length := by
  have h := claim_C7_idempotent_no_realloc exampleStoreC5 0 none none 7 9
    (by decide)
    (by
      intro a hh
      have hae : a = 1 := by
        have : (getFiber exampleStoreC5 0).alternate = some 1 := rfl
        rw [this] at hh
        exact (Option.some.inj hh).symm
      subst hae
      exact ⟨by decide, by decide⟩)
  exact ⟨(h.2.1 1 rfl).2, h.2.2.2.1, h.2.2.2.2⟩

/-- shouldConstruct(Component) from ReactFiber.js: whether the function
has a prototype with isReactComponent set; on our element-type values
this is the class flag carried by function values. -/
def shouldConstruct : ElemType → Bool
  | .efun isClass => isClass
  | _ => false

/-- createFiberFromFragment(elements, mode, expirationTime, key) from
ReactFiber.js. -/
def createFiberFromFragment {V : Type} (elements : Option V)
    (mode expirationTime : Nat) (key : Option String) : Fiber V :=
  let fiber := createFiber Fragment elements key mode
  { fiber with expirationTime := expirationTime }

/-- createFiberFromMode(pendingProps, mode, expirationTime, key) from
ReactFiber.js: a Mode fiber whose elementType/type is the strict-mode or
concurrent-mode symbol depending on the mode bits. -/
def createFiberFromMode {V : Type} (pendingProps : Option V)
    (mode expirationTime : Nat) (key : Option String) : Fiber V :=
  let fiber := createFiber Mode pendingProps key mode
  let t : ElemType :=
    if mode &&& ConcurrentMode = NoContext then .esym .strictModeSym
    else .esym .concurrentModeSym
  { fiber with
      elementType := some t
      type := some t
      expirationTime := expirationTime }

/-- createFiberFromProfiler(pendingProps, mode, expirationTime, key)
from ReactFiber.js (the DEV-only props validation emits a non-fatal
diagnostic and is omitted). -/
def createFiberFromProfiler {V : Type} (pendingProps : Option V)
    (mode expirationTime : Nat) (key : Option String) : Fiber V :=
  let fiber := createFiber Profiler pendingProps key (mode ||| ProfileMode)
  { fiber with
      elementType := some (.esym .profilerSym)
      type := some (.esym .profilerSym)
      expirationTime := expirationTime }

/-- createFiberFromSuspense(pendingProps, mode, expirationTime, key)
from ReactFiber.js. -/
def createFiberFromSuspense {V : Type} (pendingProps : Option V)
    (mode expirationTime : Nat) (key : Option String) : Fiber V :=
  let fiber := createFiber SuspenseComponent pendingProps key mode
  { fiber with
      elementType := some (.esym .suspenseSym)
      type := some (.esym .suspenseSym)
      expirationTime := expirationTime }

/-- The invariant message raised by createFiberFromTypeAndProps on an
unrecognized element type (the DEV-only info suffix is omitted). -/
def invalidElementTypeMessage : String :=
  "Element type is invalid: expected a string (for built-in components) or a class/function (for composite components)."

/-- createFiberFromTypeAndProps(type, key, pendingProps, owner, mode,
expirationTime) from ReactFiber.js.  The childrenOf parameter models the
JS property access pendingProps.children used by the fragment case.
Throwing the invariant is modelled as Except.error. -/
def createFiberFromTypeAndProps {V : Type} (childrenOf : Option V → Option V)
    (type : ElemType) (key : Option String) (pendingProps : Option V)
    (mode expirationTime : Nat) : Except String (Fiber V) :=
  let mk : Nat → Option ElemType → Except String (Fiber V) := fun fiberTag resolvedType =>
    let fiber := createFiber fiberTag pendingProps key mode
    .ok { fiber with
        elementType := some type
        type := resolvedType
        expirationTime := expirationTime }
  match type with
  | .efun isClass =>
      if shouldConstruct (.efun isClass) then mk ClassComponent (some type)
      else mk IndeterminateComponent (some type)
  | .estr _ => mk HostComponent (some type)
  | .esym .fragmentSym =>
      .ok (createFiberFromFragment (childrenOf pendingProps) mode expirationTime key)
  | .esym .concurrentModeSym =>
      .ok (createFiberFromMode pendingProps (mode ||| ConcurrentMode ||| StrictMode)
        expirationTime key)
  | .esym .strictModeSym =>
      .ok (createFiberFromMode pendingProps (mode ||| StrictMode) expirationTime key)
  | .esym .profilerSym =>
      .ok (createFiberFromProfiler pendingProps mode expirationTime key)
  | .esym .suspenseSym =>
      .ok (createFiberFromSuspense pendingProps mode expirationTime key)
  | .eobj (some .providerSym) => mk ContextProvider (some type)
  | .eobj (some .contextSym) => mk ContextConsumer (some type)
  | .eobj (some .forwardRefSym) => mk ForwardRef (some type)
  | .eobj (some .memoSym) => mk MemoComponent (some type)
  | .eobj (some .lazySym) => mk LazyComponent none
  | _ => .error invalidElementTypeMessage

/-- The element-type classes the spec declares renderable, written from
the spec text of section 4.1 and 7: functions, strings, the five
structural markers, and objects tagged as context provider or consumer,
forward-ref, memo, or lazy; everything else is an invalid element type. -/
def recognizedElementTypeSpec : ElemType → Bool
  | .efun _ => true
  | .estr _ => true
  | .esym .fragmentSym => true
  | .esym .concurrentModeSym => true
  | .esym .strictModeSym => true
  | .esym .profilerSym => true
  | .esym .suspenseSym => true
  | .eobj (some .providerSym) => true
  | .eobj (some .contextSym) => true
  | .eobj (some .forwardRefSym) => true
  | .eobj (some .memoSym) => true
  | .eobj (some .lazySym) => true
  | _ => false

/-- Whether a fallible fiber construction succeeded. -/
def fiberResultOk {V : Type} : Except String (Fiber V) → Bool
  | .ok _ => true
  | .error _ => false

/-- C8: createFiberFromTypeAndProps returns a fiber exactly for the
recognized element-type classes (functions, strings, the five structural
markers, and objects tagged provider, consumer, forward-ref, memo or
lazy) and fails fatally with the invalid-element-type invariant for
every other value. -/
theorem claim_C8_invalid_element_type {V : Type}
    (childrenOf : Option V → Option V) (type : ElemType)
    (key : Option String) (pendingProps : Option V)
    (mode expirationTime : Nat) :
    fiberResultOk (createFiberFromTypeAndProps childrenOf type key pendingProps
        mode expirationTime) = recognizedElementTypeSpec type ∧
    (recognizedElementTypeSpec type = false →
      createFiberFromTypeAndProps childrenOf type key pendingProps
        mode expirationTime = .error invalidElementTypeMessage) := by
  cases type with
  | efun isClass =>
      constructor
      · cases isClass <;> rfl
      · intro hh; cases hh
  | estr s => exact ⟨rfl, fun hh => by cases hh⟩
  | esym sy => cases sy <;> exact ⟨rfl, fun hh => by first | rfl | cases hh⟩
  | eobj tg =>
      cases tg with
      | none => exact ⟨rfl, fun _ => rfl⟩
      | some sy => cases sy <;> exact ⟨rfl, fun hh => by first | rfl | cases hh⟩
  | enull => exact ⟨rfl, fun _ => rfl⟩
  | eundefined => exact ⟨rfl, fun _ => rfl⟩
  | enum n => exact ⟨rfl, fun _ => rfl⟩
  | ebool b => exact ⟨rfl, fun _ => rfl⟩

/-- Witness for C8: a plain object with no recognized tag is rejected
with the invalid-element-type error, while a string type yields a fiber. -/
theorem claim_C8_witness :
    createFiberFromTypeAndProps (V := Unit) id (.eobj none) none none 0 0 =
      .error invalidElementTypeMessage ∧
    fiberResultOk (createFiberFromTypeAndProps (V := Unit) id
      (.estr "div") none none 0 0) = true := by
  constructor
  · exact (claim_C8_invalid_element_type id (.eobj none) none none 0 0).2 rfl
  · exact (claim_C8_invalid_element_type id (.estr "div") none none 0 0).1

/-- Modelled from the spec: the cursor/value-stack discipline of
ReactFiberStack.js (createCursor, push, pop), which is not part of the
provided sources.  Section 4.3 of the spec describes a strict-stack
abstraction with three co-indexed stacks pushed and popped together; each
cursor holds a current value (NO_CONTEXT modelled as none) and a stack of
saved values, push saves the current value and installs the new one, pop
restores the most recently saved value. -/
structure Cursor (α : Type) where
  current : Option α
  saved : List (Option α)

/-- Modelled from the spec: push(cursor, value, fiber) of
ReactFiberStack.js. -/
def pushCursor {α : Type} (c : Cursor α) (v : Option α) : Cursor α :=
  { current := v, saved := c.current :: c.saved }

/-- Modelled from the spec: pop(cursor, fiber) of ReactFiberStack.js. -/
def popCursor {α : Type} (c : Cursor α) : Cursor α :=
  { current := c.saved.headD none, saved := c.saved.tail }

/-- The module state of the host-context stack module: the three cursors
created by createCursor(NO_CONTEXT).  Container is the root-container
type, HostCtx the host-context (namespace) type; fibers are identified
by index. -/
structure HostContextState (Container HostCtx : Type) where
  rootInstanceStackCursor : Cursor Container
  contextFiberStackCursor : Cursor Nat
  contextStackCursor : Cursor HostCtx

/-- The initial module state: all three cursors hold NO_CONTEXT. -/
def initialHostContextState (Container HostCtx : Type) :
    HostContextState Container HostCtx :=
  { rootInstanceStackCursor := ⟨none, []⟩
    contextFiberStackCursor := ⟨none, []⟩
    contextStackCursor := ⟨none, []⟩ }

/-- requiredContext(c): fails with the missing-host-context invariant
when the value is NO_CONTEXT. -/
def requiredContext {α : Type} (c : Option α) : Except String α :=
  match c with
  | none => .error "Expected host context to exist. This error is likely caused by a bug in React. Please file an issue."
  | some v => .ok v

/-- getRootHostContainer() from the host-context module. -/
def getRootHostContainer {Container HostCtx : Type}
    (s : HostContextState Container HostCtx) : Except String Container :=
  requiredContext s.rootInstanceStackCursor.current

/-- getHostContext() from the host-context module. -/
def getHostContext {Container HostCtx : Type}
    (s : HostContextState Container HostCtx) : Except String HostCtx :=
  requiredContext s.contextStackCursor.current

/-- pushHostContainer(fiber, nextRootInstance): pushes the root
instance, the providing fiber and (in two steps, to stay unwind-safe) the
root host context computed by the external getRootHostContext. -/
def pushHostContainer {Container HostCtx : Type}
    (getRootHostContext : Container → HostCtx)
    (s : HostContextState Container HostCtx) (fiber : Nat)
    (nextRootInstance : Container) : HostContextState Container HostCtx :=
  let s := { s with rootInstanceStackCursor := pushCursor s.rootInstanceStackCursor (some nextRootInstance) }
  let s := { s with contextFiberStackCursor := pushCursor s.contextFiberStackCursor (some fiber) }
  let s := { s with contextStackCursor := pushCursor s.contextStackCursor none }
  let nextRootContext := getRootHostContext nextRootInstance
  let s := { s with contextStackCursor := popCursor s.contextStackCursor }
  { s with contextStackCursor := pushCursor s.contextStackCursor (some nextRootContext) }

/-- popHostContainer(fiber): pops all three cursors. -/
def popHostContainer {Container HostCtx : Type}
    (s : HostContextState Container HostCtx) : HostContextState Container HostCtx :=
  { rootInstanceStackCursor := popCursor s.rootInstanceStackCursor
    contextFiberStackCursor := popCursor s.contextFiberStackCursor
    contextStackCursor := popCursor s.contextStackCursor }

/-- C9: reading the host-context stack while it is empty (the cursors
still hold NO_CONTEXT) fails fatally with the missing-host-context
invariant, and after a pushHostContainer both getHostContext and
getRootHostContainer succeed. -/
theorem claim_C9_missing_host_context {Container HostCtx : Type}
    (grhc : Container → HostCtx) (s : HostContextState Container HostCtx)
    (fiber : Nat) (inst : Container) :
    (∀ s0 : HostContextState Container HostCtx,
      s0.contextStackCursor.current = none →
        ∃ msg, getHostContext s0 = .error msg) ∧
    (∀ s0 : HostContextState Container HostCtx,
      s0.rootInstanceStackCursor.current = none →
        ∃ msg, getRootHostContainer s0 = .error msg) ∧
    getHostContext (pushHostContainer grhc s fiber inst) = .ok (grhc inst) ∧
    getRootHostContainer (pushHostContainer grhc s fiber inst) = .ok inst := by
  refine ⟨?_, ?_, rfl, rfl⟩
  · intro s0 h
    exact ⟨_, by rw [getHostContext, h]; rfl⟩
  · intro s0 h
    exact ⟨_, by rw [getRootHostContainer, h]; rfl⟩

/-- Witness for C9 on concrete types: the initial (empty) state rejects
both reads and a pushed container serves both. -/
theorem claim_C9_witness :
    (∃ msg, getHostContext (initialHostContextState String String) = .error msg) ∧
    (∃ msg, getRootHostContainer (initialHostContextState String String) = .error msg) ∧
    getHostContext (pushHostContainer (fun c => c ++ "-ns")
      (initialHostContextState String String) 0 "root") = .ok "root-ns" ∧
    getRootHostContainer (pushHostContainer (fun c => c ++ "-ns")
      (initialHostContextState String String) 0 "root") = .ok "root" := by
  have h := claim_C9_missing_host_context (fun c => c ++ "-ns")
    (initialHostContextState String String) 0 "root"
  exact ⟨h.1 _ rfl, h.2.1 _ rfl, h.2.2.1, h.2.2.2⟩

/-- JavaScript values flowing into DOM property assignment, classified
by typeof as setValueForProperty needs: null, undefined, booleans,
numbers, strings, functions and symbols (function bodies and symbol
identities are irrelevant to the attribute logic). -/
inductive DVal where
  | dnull
  | dundefined
  | dbool (b : Bool)
  | dnum (n : Int)
  | dstr (s : String)
  | dfun
  | dsym
deriving DecidableEq, Repr

/-- Property type RESERVED = 0 (shared/DOMProperty.js). -/
def RESERVED : Nat := 0
/-- Property type STRING = 1 (shared/DOMProperty.js). -/
def STRING : Nat := 1
/-- Property type BOOLEANISH_STRING = 2 (shared/DOMProperty.js). -/
def BOOLEANISH_STRING : Nat := 2
/-- Property type BOOLEAN = 3 (shared/DOMProperty.js). -/
def BOOLEAN : Nat := 3
/-- Property type OVERLOADED_BOOLEAN = 4 (shared/DOMProperty.js). -/
def OVERLOADED_BOOLEAN : Nat := 4
/-- Property type NUMERIC = 5 (shared/DOMProperty.js). -/
def NUMERIC : Nat := 5
/-- Property type POSITIVE_NUMERIC = 6 (shared/DOMProperty.js). -/
def POSITIVE_NUMERIC : Nat := 6

/-- PropertyInfo records of shared/DOMProperty.js (field `type` renamed
ptype). -/
structure PropertyInfo where
  acceptsBooleans : Bool
  attributeName : String
  attributeNamespace : Option String
  mustUseProperty : Bool
  propertyName : String
  ptype : Nat
deriving DecidableEq, Repr

/-- The PropertyInfoRecord constructor of shared/DOMProperty.js:
acceptsBooleans is derived from the property type. -/
def propertyInfoRecord (name : String) (ptype : Nat) (mustUseProperty : Bool)
    (attributeName : String) (attributeNamespace : Option String) : PropertyInfo :=
  { acceptsBooleans :=
      decide (ptype = BOOLEANISH_STRING) || decide (ptype = BOOLEAN) ||
        decide (ptype = OVERLOADED_BOOLEAN)
    attributeName := attributeName
    attributeNamespace := attributeNamespace
    mustUseProperty := mustUseProperty
    propertyName := name
    ptype := ptype }

/-- The CAMELIZE regex replacement of shared/DOMProperty.js: a hyphen or
colon followed by a lowercase letter becomes that letter uppercased. -/
def camelizeAux : List Char → List Char
  | [] => []
  | c :: rest =>
      if c = '-' ∨ c = ':' then
        match rest with
        | d :: rest2 =>
            if 'a' ≤ d ∧ d ≤ 'z' then d.toUpper :: camelizeAux rest2
            else c :: d :: camelizeAux rest2
        | [] => [c]
      else c :: camelizeAux rest

/-- camelize(attributeName) from shared/DOMProperty.js. -/
def camelize (s : String) : String := String.mk (camelizeAux s.toList)

/-- Reserved props of shared/DOMProperty.js: never written to the DOM. -/
def reservedPropNames : List String :=
  ["children", "dangerouslySetInnerHTML", "defaultValue", "defaultChecked",
   "innerHTML", "suppressContentEditableWarning", "suppressHydrationWarning",
   "style"]

/-- React string props whose attribute name differs. -/
def renamedStringProps : List (String × String) :=
  [("acceptCharset", "accept-charset"), ("className", "class"),
   ("htmlFor", "for"), ("httpEquiv", "http-equiv")]

/-- Enumerated HTML attributes accepting "true"/"false". -/
def booleanishHtmlNames : List String :=
  ["contentEditable", "draggable", "spellCheck", "value"]

/-- Enumerated case-sensitive SVG attributes accepting "true"/"false". -/
def booleanishSvgNames : List String :=
  ["autoReverse", "externalResourcesRequired", "focusable", "preserveAlpha"]

/-- HTML boolean attributes. -/
def booleanAttrNames : List String :=
  ["allowFullScreen", "async", "autoFocus", "autoPlay", "controls",
   "default", "defer", "disabled", "formNoValidate", "hidden", "loop",
   "noModule", "noValidate", "open", "playsInline", "readOnly", "required",
   "reversed", "scoped", "seamless", "itemScope"]

/-- Boolean props that must be set as DOM properties. -/
def mustUsePropertyNames : List String :=
  ["checked", "multiple", "muted", "selected"]

/-- Overloaded-boolean attributes. -/
def overloadedBooleanNames : List String := ["capture", "download"]

/-- Attributes that must be positive numbers. -/
def positiveNumericNames : List String := ["cols", "rows", "size", "span"]

/-- Attributes that must be numbers. -/
def numericNames : List String := ["rowSpan", "start"]

/-- SVG attributes needing camel-casing (string typed, no namespace). -/
def svgCamelNames : List String :=
  ["accent-height", "alignment-baseline", "arabic-form", "baseline-shift",
   "cap-height", "clip-path", "clip-rule", "color-interpolation",
   "color-interpolation-filters", "color-profile", "color-rendering",
   "dominant-baseline", "enable-background", "fill-opacity", "fill-rule",
   "flood-color", "flood-opacity", "font-family", "font-size",
   "font-size-adjust", "font-stretch", "font-style", "font-variant",
   "font-weight", "glyph-name", "glyph-orientation-horizontal",
   "glyph-orientation-vertical", "horiz-adv-x", "horiz-origin-x",
   "image-rendering", "letter-spacing", "lighting-color", "marker-end",
   "marker-mid", "marker-start", "overline-position", "overline-thickness",
   "paint-order", "panose-1", "pointer-events", "rendering-intent",
   "shape-rendering", "stop-color", "stop-opacity", "strikethrough-position",
   "strikethrough-thickness", "stroke-dasharray", "stroke-dashoffset",
   "stroke-linecap", "stroke-linejoin", "stroke-miterlimit", "stroke-opacity",
   "stroke-width", "text-anchor", "text-decoration", "text-rendering",
   "underline-position", "underline-thickness", "unicode-bidi",
   "unicode-range", "units-per-em", "v-alphabetic", "v-hanging",
   "v-ideographic", "v-mathematical", "vector-effect", "vert-adv-y",
   "vert-origin-x", "vert-origin-y", "word-spacing", "writing-mode",
   "xmlns:xlink", "x-height"]

/-- String SVG attributes in the xlink namespace. -/
def xlinkNames : List String :=
  ["xlink:actuate", "xlink:arcrole", "xlink:href", "xlink:role",
   "xlink:show", "xlink:title", "xlink:type"]

/-- String SVG attributes in the xml namespace. -/
def xmlNames : List String := ["xml:base", "xml:lang", "xml:space"]

/-- Case-sensitive attributes shared by HTML and SVG. -/
def htmlAndSvgNames : List String := ["tabIndex", "crossOrigin"]

/-- The properties whitelist of shared/DOMProperty.js, assembled group by
group exactly as the source builds it. -/
def properties : List (String × PropertyInfo) :=
  (reservedPropNames.map fun name =>
    (name, propertyInfoRecord name RESERVED false name none)) ++
  (renamedStringProps.map fun p =>
    (p.1, propertyInfoRecord p.1 STRING false p.2 none)) ++
  (booleanishHtmlNames.map fun name =>
    (name, propertyInfoRecord name BOOLEANISH_STRING false name.toLower none)) ++
  (booleanishSvgNames.map fun name =>
    (name, propertyInfoRecord name BOOLEANISH_STRING false name none)) ++
  (booleanAttrNames.map fun name =>
    (name, propertyInfoRecord name BOOLEAN false name.toLower none)) ++
  (mustUsePropertyNames.map fun name =>
    (name, propertyInfoRecord name BOOLEAN true name none)) ++
  (overloadedBooleanNames.map fun name =>
    (name, propertyInfoRecord name OVERLOADED_BOOLEAN false name none)) ++
  (positiveNumericNames.map fun name =>
    (name, propertyInfoRecord name POSITIVE_NUMERIC false name none)) ++
  (numericNames.map fun name =>
    (name, propertyInfoRecord name NUMERIC false name.toLower none)) ++
  (svgCamelNames.map fun attributeName =>
    (camelize attributeName,
      propertyInfoRecord (camelize attributeName) STRING false attributeName none)) ++
  (xlinkNames.map fun attributeName =>
    (camelize attributeName,
      propertyInfoRecord (camelize attributeName) STRING false attributeName
        (some "http://www.w3.org/1999/xlink"))) ++
  (xmlNames.map fun attributeName =>
    (camelize attributeName,
      propertyInfoRecord (camelize attributeName) STRING false attributeName
        (some "http://www.w3.org/XML/1998/namespace"))) ++
  (htmlAndSvgNames.map fun attributeName =>
    (attributeName,
      propertyInfoRecord attributeName STRING false attributeName.toLower none))

/-- getPropertyInfo(name) from shared/DOMProperty.js. -/
def getPropertyInfo (name : String) : Option PropertyInfo :=
  List.lookup name properties

/-- shouldIgnoreAttribute(name, propertyInfo, isCustomComponentTag) from
shared/DOMProperty.js: reserved properties and (outside custom elements)
on-prefixed event handler names are never written. -/
def shouldIgnoreAttribute (name : String) (propertyInfo : Option PropertyInfo)
    (isCustomComponentTag : Bool) : Bool :=
  match propertyInfo with
  | some info => decide (info.ptype = RESERVED)
  | none =>
      if isCustomComponentTag then false
      else
        match name.toList with
        | c0 :: c1 :: _ :: _ =>
            decide ((c0 = 'o' ∨ c0 = 'O') ∧ (c1 = 'n' ∨ c1 = 'N'))
        | _ => false

/-- shouldRemoveAttributeWithWarning(name, value, propertyInfo,
isCustomComponentTag) from shared/DOMProperty.js. -/
def shouldRemoveAttributeWithWarning (name : String) (value : DVal)
    (propertyInfo : Option PropertyInfo) (isCustomComponentTag : Bool) : Bool :=
  let isReserved :=
    match propertyInfo with
    | some info => decide (info.ptype = RESERVED)
    | none => false
  if isReserved then false
  else
    match value with
    | .dfun => true
    | .dsym => true
    | .dbool _ =>
        if isCustomComponentTag then false
        else
          match propertyInfo with
          | some info => !info.acceptsBooleans
          | none =>
              let pfx := (name.toLower).take 5
              decide (pfx ≠ "data-" ∧ pfx ≠ "aria-")
    | _ => false

/-- JS isNaN(value) restricted to our value universe (string parsing is
approximated by integer parsing; the numeric branches are not exercised
by the verified claims). -/
def jsIsNaN : DVal → Bool
  | .dundefined => true
  | .dnull => false
  | .dbool _ => false
  | .dnum _ => false
  | .dstr s => (s.trim.toInt?).isNone
  | .dfun => true
  | .dsym => true

/-- JS (value < 1) under numeric coercion, same caveats as jsIsNaN. -/
def jsLtOne : DVal → Bool
  | .dnum n => decide (n < 1)
  | .dbool b => !b
  | .dstr s =>
      match s.trim.toInt? with
      | some n => decide (n < 1)
      | none => false
  | _ => false

/-- JS falsiness of a value (only reached for booleans, numbers and
strings in shouldRemoveAttribute). -/
def jsFalsy : DVal → Bool
  | .dbool b => !b
  | .dnum n => decide (n = 0)
  | .dstr s => decide (s = "")
  | .dnull => true
  | .dundefined => true
  | _ => false

/-- shouldRemoveAttribute(name, value, propertyInfo, isCustomComponentTag)
from shared/DOMProperty.js. -/
def shouldRemoveAttribute (name : String) (value : DVal)
    (propertyInfo : Option PropertyInfo) (isCustomComponentTag : Bool) : Bool :=
  if value = DVal.dnull ∨ value = DVal.dundefined then true
  else if shouldRemoveAttributeWithWarning name value propertyInfo isCustomComponentTag then
    true
  else if isCustomComponentTag then false
  else
    match propertyInfo with
    | some info =>
        if info.ptype = BOOLEAN then jsFalsy value
        else if info.ptype = OVERLOADED_BOOLEAN then decide (value = DVal.dbool false)
        else if info.ptype = NUMERIC then jsIsNaN value
        else if info.ptype = POSITIVE_NUMERIC then jsIsNaN value || jsLtOne value
        else false
    | none => false

/-- The ATTRIBUTE_NAME_START_CHAR character class of
shared/DOMProperty.js (standard XML name start characters). -/
def isAttributeNameStartChar (c : Char) : Bool :=
  let n := c.toNat
  decide (c = ':') || decide (65 ≤ n ∧ n ≤ 90) || decide (c = '_') ||
    decide (97 ≤ n ∧ n ≤ 122) ||
    decide (0xC0 ≤ n ∧ n ≤ 0xD6) || decide (0xD8 ≤ n ∧ n ≤ 0xF6) ||
    decide (0xF8 ≤ n ∧ n ≤ 0x2FF) || decide (0x370 ≤ n ∧ n ≤ 0x37D) ||
    decide (0x37F ≤ n ∧ n ≤ 0x1FFF) || decide (0x200C ≤ n ∧ n ≤ 0x200D) ||
    decide (0x2070 ≤ n ∧ n ≤ 0x218F) || decide (0x2C00 ≤ n ∧ n ≤ 0x2FEF) ||
    decide (0x3001 ≤ n ∧ n ≤ 0xD7FF) || decide (0xF900 ≤ n ∧ n ≤ 0xFDCF) ||
    decide (0xFDF0 ≤ n ∧ n ≤ 0xFFFD)

/-- The ATTRIBUTE_NAME_CHAR character class of shared/DOMProperty.js. -/
def isAttributeNameChar (c : Char) : Bool :=
  let n := c.toNat
  isAttributeNameStartChar c || decide (c = '-') || decide (c = '.') ||
    decide (48 ≤ n ∧ n ≤ 57) || decide (n = 0xB7) ||
    decide (0x300 ≤ n ∧ n ≤ 0x36F) || decide (0x203F ≤ n ∧ n ≤ 0x2040)

/-- isAttributeNameSafe(attributeName) from shared/DOMProperty.js: the
VALID_ATTRIBUTE_NAME_REGEX test (the two warn-once caches only suppress
repeated diagnostics and do not change the verdict, so they are not
modelled). -/
def isAttributeNameSafe (attributeName : String) : Bool :=
  match attributeName.toList with
  | [] => false
  | c :: rest => isAttributeNameStartChar c && rest.all isAttributeNameChar

/-- Assignment into a string-keyed association list: the first existing
binding is overwritten in place, otherwise the binding is appended. -/
def setAssoc {α : Type} : List (String × α) → String → α → List (String × α)
  | [], k, v => [(k, v)]
  | (k', v') :: rest, k, v =>
      if k' = k then (k', v) :: rest else (k', v') :: setAssoc rest k v

/-- The host DOM element as the property writer sees it: plain
attributes, namespaced attributes, and DOM object properties. -/
structure DomNode where
  attributes : List (String × String)
  nsAttributes : List (String × String × String)
  properties : List (String × DVal)
deriving DecidableEq, Repr

/-- node.removeAttribute(name). -/
def removeAttribute (node : DomNode) (name : String) : DomNode :=
  { node with attributes := node.attributes.filter fun kv => kv.1 ≠ name }

/-- node.setAttribute(name, value). -/
def setAttribute (node : DomNode) (name value : String) : DomNode :=
  { node with attributes := setAssoc node.attributes name value }

/-- node.setAttributeNS(namespace, name, value), recorded separately. -/
def setAttributeNS (node : DomNode) (ns name value : String) : DomNode :=
  { node with nsAttributes := node.nsAttributes ++ [(ns, name, value)] }

/-- node[propertyName] = value. -/
def setDomProperty (node : DomNode) (name : String) (value : DVal) : DomNode :=
  { node with properties := setAssoc node.properties name value }

/-- The JS string coercion ('' + value) on our value universe (coercing
a function prints its source text and coercing a symbol throws; neither
happens on the paths the claims exercise, since such values are removed
first). -/
def toStringJS : DVal → String
  | .dstr s => s
  | .dbool true => "true"
  | .dbool false => "false"
  | .dnum n => toString n
  | .dnull => "null"
  | .dundefined => "undefined"
  | .dfun => "function"
  | .dsym => "symbol"

/-- setValueForProperty(node, name, value, isCustomComponentTag) from
react-dom DOMPropertyOperations (src/unnamed/part_000).  The unreachable
null-propertyInfo arm of the final branch (the source would crash there)
returns the node unchanged. -/
def setValueForProperty (node : DomNode) (name : String) (value : DVal)
    (isCustomComponentTag : Bool) : DomNode :=
  let propertyInfo := getPropertyInfo name
  if shouldIgnoreAttribute name propertyInfo isCustomComponentTag then node
  else
    let value :=
      if shouldRemoveAttribute name value propertyInfo isCustomComponentTag then
        DVal.dnull
      else value
    if isCustomComponentTag || propertyInfo.isNone then
      (if isAttributeNameSafe name then
        (if value = DVal.dnull then removeAttribute node name
         else setAttribute node name (toStringJS value))
       else node)
    else
      match propertyInfo with
      | none => node
      | some info =>
          if info.mustUseProperty then
            (if value = DVal.dnull then
              setDomProperty node info.propertyName
                (if info.ptype = BOOLEAN then DVal.dbool false else DVal.dstr "")
             else setDomProperty node info.propertyName value)
          else
            (if value = DVal.dnull then removeAttribute node info.attributeName
             else
              let attributeValue :=
                if info.ptype = BOOLEAN ∨
                    (info.ptype = OVERLOADED_BOOLEAN ∧ value = DVal.dbool true) then ""
                else toStringJS value
              (match info.attributeNamespace with
               | some ns => setAttributeNS node ns info.attributeName attributeValue
               | none => setAttribute node info.attributeName attributeValue))

/-- What it means for a property write never to store the incoming
value: the node is unchanged, or the attribute was removed, or a
must-use-property field was reset to false or the empty string. -/
def neverWritesValue (node res : DomNode) : Prop :=
  res = node ∨ (∃ an, res = removeAttribute node an) ∨
  (∃ pn, res = setDomProperty node pn (DVal.dbool false)) ∨
  (∃ pn, res = setDomProperty node pn (DVal.dstr ""))

/-- Counterexample to C10 as stated: the property table classifies
"style" as RESERVED, and for a reserved property
shouldRemoveAttribute judges a function value NOT removable (it returns
false), contradicting the claim that function values are always judged
removable for every classification.  (setValueForProperty never reaches
this check for reserved names: shouldIgnoreAttribute returns first.) -/
theorem claim_C10_counterexample :
    getPropertyInfo "style" =
      some (propertyInfoRecord "style" RESERVED false "style" none) ∧
    shouldRemoveAttribute "style" DVal.dfun (getPropertyInfo "style") false = false ∧
    shouldRemoveAttributeWithWarning "style" DVal.dfun (getPropertyInfo "style") false
      = false := by
  refine ⟨by decide, by decide, by decide⟩

/-- C10 (amended): for every non-reserved classification (and for no
classification at all), a function- or symbol-valued prop is judged
removable by shouldRemoveAttribute, and setValueForProperty never stores
such a value on the host node: it leaves the node unchanged (reserved or
ignored or unsafe names) or removes the attribute, resetting a
must-use-property field to false or the empty string. -/
theorem claim_C10_function_symbol_removed (name : String) (v : DVal)
    (custom : Bool) (hv : v = DVal.dfun ∨ v = DVal.dsym) :
    (∀ info : Option PropertyInfo,
        (∀ i, info = some i → i.ptype ≠ RESERVED) →
        shouldRemoveAttribute name v info custom = true) ∧
    (∀ node : DomNode, neverWritesValue node (setValueForProperty node name v custom)) := by
  have hwarning : ∀ info : Option PropertyInfo,
      (∀ i, info = some i → i.ptype ≠ RESERVED) →
      shouldRemoveAttributeWithWarning name v info custom = true := by
    intro info hres
    rcases hv with hv | hv <;> subst hv <;>
      cases info with
      | none => rfl
      | some i =>
          have hi := hres i rfl
          simp [shouldRemoveAttributeWithWarning, hi]
  have hsra : ∀ info : Option PropertyInfo,
      (∀ i, info = some i → i.ptype ≠ RESERVED) →
      shouldRemoveAttribute name v info custom = true := by
    intro info hres
    have h1 : ¬ (v = DVal.dnull ∨ v = DVal.dundefined) := by
      rcases hv with hv | hv <;> subst hv <;> simp
    simp [shouldRemoveAttribute, h1, hwarning info hres]
  refine ⟨hsra, ?_⟩
  intro node
  unfold setValueForProperty
  by_cases hig : shouldIgnoreAttribute name (getPropertyInfo name) custom = true
  · simp only [hig, if_true]
    exact Or.inl rfl
  · have hres : ∀ i, getPropertyInfo name = some i → i.ptype ≠ RESERVED := by
      intro i hi hR
      apply hig
      simp [shouldIgnoreAttribute, hi, hR]
    have hrm := hsra (getPropertyInfo name) hres
    simp only [Bool.not_eq_true] at hig
    simp only [hig, Bool.false_eq_true, if_false, hrm, if_true]
    by_cases hcn : (custom || (getPropertyInfo name).isNone) = true
    · simp only [hcn, if_true]
      by_cases hsafe : isAttributeNameSafe name = true
      · simp only [hsafe, if_true, if_pos rfl]
        exact Or.inr (Or.inl ⟨name, rfl⟩)
      · simp only [Bool.not_eq_true] at hsafe
        simp only [hsafe, Bool.false_eq_true, if_false]
        exact Or.inl rfl
    · simp only [Bool.not_eq_true] at hcn
      simp only [hcn, Bool.false_eq_true, if_false]
      cases hpi : getPropertyInfo name with
      | none =>
          rw [hpi] at hcn
          simp at hcn
      | some info =>
          simp only [hpi]
          by_cases hmup : info.mustUseProperty = true
          · simp only [hmup, if_true, if_pos rfl]
            by_cases hbool : info.ptype = BOOLEAN
            · simp only [hbool, if_pos rfl]
              exact Or.inr (Or.inr (Or.inl ⟨info.propertyName, rfl⟩))
            · simp only [if_neg hbool]
              exact Or.inr (Or.inr (Or.inr ⟨info.propertyName, rfl⟩))
          · simp only [Bool.not_eq_true] at hmup
            simp only [hmup, Bool.false_eq_true, if_false, if_pos rfl]
            exact Or.inr (Or.inl ⟨info.attributeName, rfl⟩)

/-- Witness for the amended C10: a function-valued prop on an unlisted
attribute name is judged removable, and setValueForProperty on a node
that carries the attribute does not store the function. -/
theorem claim_C10_witness :
    shouldRemoveAttribute "foo" DVal.dfun none false = true ∧
    neverWritesValue ⟨[("foo", "1")], [], []⟩
      (setValueForProperty ⟨[("foo", "1")], [], []⟩ "foo" DVal.dfun false) := by
  have h := claim_C10_function_symbol_removed "foo" DVal.dfun false (Or.inl rfl)
  exact ⟨h.1 none (fun i hi => by cases hi), h.2 ⟨[("foo", "1")], [], []⟩⟩

end ReactModel
